import Mathlib

/-!
# Verification of the resume-analysis service (`app.py`)

Shallow embedding of the cache-backed analysis pipeline of `app.py`:
the MD5-based fingerprint generator (`CacheManager.generate_key`), the
two cache backends (`CacheManager.get` / `CacheManager.set`), the PDF
text extractor (`extract_text_from_pdf`), the JSON fence-stripping
normalization, and the `analyze` request pipeline.

Conventions of the embedding:
* Python byte strings are `List Nat` (each entry a byte value `< 256`).
* Python statements that can raise are modelled in an `Except`-shaped
  result; `try/except` is the `pyTry` combinator.
* External collaborators (the Redis client, the PDF parser, the remote
  LLM endpoint) are modelled as explicit oracle arguments describing the
  outcome of the one call the code makes to them.
* JSON values are the inductive `Json`; numbers are modelled as integers
  (the analysis schema of the program only uses integers).
* Python dict mutation (`d[k] = v`) aliases: the process-local cache is
  therefore modelled with an explicit heap of addresses.
-/

/-! ## MD5 (`hashlib.md5`), as called by `CacheManager.generate_key` -/

namespace Md5

/-- The `2^32` modulus of 32-bit words. -/
def w32 : Nat := 4294967296

/-- 32-bit truncating addition. -/
def add32 (x y : Nat) : Nat := (x + y) % w32

/-- 32-bit complement. -/
def not32 (x : Nat) : Nat := Nat.xor x 4294967295

/-- 32-bit rotate left by `n` (for `0 < n < 32` and `x < 2^32`). -/
def rotl32 (x n : Nat) : Nat := Nat.lor (Nat.shiftLeft x n) (Nat.shiftRight x (32 - n)) % w32

/-- The 64 sine-derived round constants of MD5 (RFC 1321). -/
def kTable : List Nat :=
  [3614090360, 3905402710, 606105819, 3250441966, 4118548399, 1200080426, 2821735955, 4249261313,
   1770035416, 2336552879, 4294925233, 2304563134, 1804603682, 4254626195, 2792965006, 1236535329,
   4129170786, 3225465664, 643717713, 3921069994, 3593408605, 38016083, 3634488961, 3889429448,
   568446438, 3275163606, 4107603335, 1163531501, 2850285829, 4243563512, 1735328473, 2368359562,
   4294588738, 2272392833, 1839030562, 4259657740, 2763975236, 1272893353, 4139469664, 3200236656,
   681279174, 3936430074, 3572445317, 76029189, 3654602809, 3873151461, 530742520, 3299628645,
   4096336452, 1126891415, 2878612391, 4237533241, 1700485571, 2399980690, 4293915773, 2240044497,
   1873313359, 4264355552, 2734768916, 1309151649, 4149444226, 3174756917, 718787259, 3951481745]

/-- The per-round left-rotation amounts of MD5 (RFC 1321). -/
def sTable : List Nat :=
  [7, 12, 17, 22, 7, 12, 17, 22, 7, 12, 17, 22, 7, 12, 17, 22,
   5, 9, 14, 20, 5, 9, 14, 20, 5, 9, 14, 20, 5, 9, 14, 20,
   4, 11, 16, 23, 4, 11, 16, 23, 4, 11, 16, 23, 4, 11, 16, 23,
   6, 10, 15, 21, 6, 10, 15, 21, 6, 10, 15, 21, 6, 10, 15, 21]

/-- Little-endian 32-bit message word `g` of a 64-byte block. -/
def wordAt (block : List Nat) (g : Nat) : Nat :=
  block.getD (4 * g) 0 + 256 * block.getD (4 * g + 1) 0 +
    65536 * block.getD (4 * g + 2) 0 + 16777216 * block.getD (4 * g + 3) 0

/-- One of the 64 MD5 rounds, acting on the state `(a, b, c, d)`. -/
def round (m : Nat → Nat) (st : Nat × Nat × Nat × Nat) (i : Nat) : Nat × Nat × Nat × Nat :=
  let a := st.1; let b := st.2.1; let c := st.2.2.1; let d := st.2.2.2
  let f :=
    if i < 16 then Nat.lor (Nat.land b c) (Nat.land (not32 b) d)
    else if i < 32 then Nat.lor (Nat.land d b) (Nat.land (not32 d) c)
    else if i < 48 then Nat.xor (Nat.xor b c) d
    else Nat.xor c (Nat.lor b (not32 d))
  let g :=
    if i < 16 then i
    else if i < 32 then (5 * i + 1) % 16
    else if i < 48 then (3 * i + 5) % 16
    else (7 * i) % 16
  let tmp := add32 (add32 (add32 f a) (kTable.getD i 0)) (m g)
  (d, add32 b (rotl32 tmp (sTable.getD i 0)), b, c)

/-- Process one padded 64-byte block, updating the running state. -/
def processBlock (st : Nat × Nat × Nat × Nat) (block : List Nat) : Nat × Nat × Nat × Nat :=
  let r := (List.range 64).foldl (round (wordAt block)) st
  (add32 st.1 r.1, add32 st.2.1 r.2.1, add32 st.2.2.1 r.2.2.1, add32 st.2.2.2 r.2.2.2)

/-- `n` as `k` little-endian bytes. -/
def leBytes (k n : Nat) : List Nat := (List.range k).map fun i => Nat.shiftRight n (8 * i) % 256

/-- MD5 padding: a `0x80` byte, zeros to 56 mod 64, then the bit length
as eight little-endian bytes. -/
def padMsg (msg : List Nat) : List Nat :=
  msg ++ [128] ++ List.replicate ((119 - msg.length % 64) % 64) 0 ++
    leBytes 8 ((8 * msg.length) % 18446744073709551616)

/-- Split into 64-byte chunks; fuel-driven so it evaluates in the kernel. -/
def chunksAux : Nat → List Nat → List (List Nat)
  | 0, _ => []
  | fuel + 1, bs => if bs.isEmpty then [] else bs.take 64 :: chunksAux fuel (bs.drop 64)

/-- The 16 digest bytes of a byte message. -/
def digestBytes (msg : List Nat) : List Nat :=
  let padded := padMsg msg
  let st := (chunksAux padded.length padded).foldl processBlock
    (1732584193, 4023233417, 2562383102, 271733878)
  leBytes 4 st.1 ++ leBytes 4 st.2.1 ++ leBytes 4 st.2.2.1 ++ leBytes 4 st.2.2.2

/-- Lowercase hex digit. -/
def hexChar (n : Nat) : Char := "0123456789abcdef".data.getD n '?'

/-- A byte as two lowercase hex characters. -/
def byteHex (b : Nat) : List Char := [hexChar (b / 16), hexChar (b % 16)]

/-- `hashlib.md5(msg).hexdigest()`. -/
def hexdigest (msg : List Nat) : String := ⟨(digestBytes msg).foldr (fun b acc => byteHex b ++ acc) []⟩

end Md5

/-! ## UTF-8 encoding (`str.encode("utf-8")`) -/

/-- The 1–4 UTF-8 bytes of one code point. -/
def utf8EncodeChar (c : Char) : List Nat :=
  let n := c.toNat
  if n < 128 then [n]
  else if n < 2048 then [192 + n / 64, 128 + n % 64]
  else if n < 65536 then [224 + n / 4096, 128 + (n / 64) % 64, 128 + n % 64]
  else [240 + n / 262144, 128 + (n / 4096) % 64, 128 + (n / 64) % 64, 128 + n % 64]

/-- `s.encode("utf-8")` as a byte list. -/
def utf8Encode (s : String) : List Nat :=
  s.data.foldr (fun c acc => utf8EncodeChar c ++ acc) []

/-! ## `CacheManager.generate_key` (app.py lines 69–73) -/

/-- `CacheManager.generate_key(file_bytes, jd_text)`:
`f"resume:v3:{content_hash}:{jd_hash}"` with both hashes MD5 hex digests. -/
def generate_key (file_bytes : List Nat) (jd_text : String) : String :=
  "resume:v3:" ++ Md5.hexdigest file_bytes ++ ":" ++ Md5.hexdigest (utf8Encode jd_text)

/-- First message of the classical MD5 collision pair (Wang et al.). -/
def collMsg1 : List Nat :=
  [209, 49, 221, 2, 197, 230, 238, 196, 105, 61, 154, 6, 152, 175, 249, 92, 47, 202, 181, 135, 18, 70, 126, 171, 64, 4, 88, 62, 184, 251, 127, 137, 85, 173, 52, 6, 9, 244, 179, 2, 131, 228, 136, 131, 37, 113, 65, 90, 8, 81, 37, 232, 247, 205, 201, 159, 217, 29, 189, 242, 128, 55, 60, 91, 216, 130, 62, 49, 86, 52, 143, 91, 174, 109, 172, 212, 54, 201, 25, 198, 221, 83, 226, 180, 135, 218, 3, 253, 2, 57, 99, 6, 210, 72, 205, 160, 233, 159, 51, 66, 15, 87, 126, 232, 206, 84, 182, 112, 128, 168, 13, 30, 198, 152, 33, 188, 182, 168, 131, 147, 150, 249, 101, 43, 111, 247, 42, 112]

/-- Second message of the classical MD5 collision pair (Wang et al.). -/
def collMsg2 : List Nat :=
  [209, 49, 221, 2, 197, 230, 238, 196, 105, 61, 154, 6, 152, 175, 249, 92, 47, 202, 181, 7, 18, 70, 126, 171, 64, 4, 88, 62, 184, 251, 127, 137, 85, 173, 52, 6, 9, 244, 179, 2, 131, 228, 136, 131, 37, 241, 65, 90, 8, 81, 37, 232, 247, 205, 201, 159, 217, 29, 189, 114, 128, 55, 60, 91, 216, 130, 62, 49, 86, 52, 143, 91, 174, 109, 172, 212, 54, 201, 25, 198, 221, 83, 226, 52, 135, 218, 3, 253, 2, 57, 99, 6, 210, 72, 205, 160, 233, 159, 51, 66, 15, 87, 126, 232, 206, 84, 182, 112, 128, 40, 13, 30, 198, 152, 33, 188, 182, 168, 131, 147, 150, 249, 101, 171, 111, 247, 42, 112]

/-! ## JSON values -/

/-- JSON values (Python `dict`/`list`/`str`/`int`/`bool`/`None`); numbers
are restricted to the integers the analysis schema uses. Object entries
keep insertion order, as Python dicts do. -/
inductive Json where
  | null : Json
  | bool (b : Bool) : Json
  | num (n : Int) : Json
  | str (s : String) : Json
  | arr (xs : List Json) : Json
  | obj (kvs : List (String × Json)) : Json

/-- Python truthiness (`if cached_data:`, `if data`) of a JSON value. -/
def Json.truthy : Json → Bool
  | .null => false
  | .bool b => b
  | .num n => n != 0
  | .str s => !s.isEmpty
  | .arr xs => !xs.isEmpty
  | .obj kvs => !kvs.isEmpty

/-- Association list lookup (leftmost binding): Python `dict` access. -/
def alistGet {β : Type} : List (String × β) → String → Option β
  | [], _ => none
  | (k, b) :: rest, key => if k == key then some b else alistGet rest key

/-- Association list update: Python `d[k] = v` replaces an existing
binding in place (keeping its position) and appends a fresh one. -/
def alistSet {β : Type} : List (String × β) → String → β → List (String × β)
  | [], key, b => [(key, b)]
  | (k, c) :: rest, key, b =>
    if k == key then (key, b) :: rest else (k, c) :: alistSet rest key b

/-- Python item assignment `value[k] = v`: only a dict supports string
item assignment; on any other value the interpreter raises a TypeError,
modelled as `none`. -/
def Json.setItem : Json → String → Json → Option Json
  | .obj kvs, k, v => some (.obj (alistSet kvs k v))
  | _, _, _ => none

/-! ## `json.dumps(·, ensure_ascii=False)` -/

/-- Decimal digits of `n`, most significant first (fuel-driven). -/
def natDecAux : Nat → Nat → List Char → List Char
  | 0, _, acc => acc
  | fuel + 1, n, acc =>
    let acc2 := Md5.hexChar (n % 10) :: acc
    if n < 10 then acc2 else natDecAux fuel (n / 10) acc2

/-- Decimal rendering of a natural number. -/
def natDec (n : Nat) : List Char := natDecAux (n + 1) n []

/-- Python `repr` of an integer. -/
def intDec (i : Int) : List Char := if i < 0 then '-' :: natDec i.natAbs else natDec i.natAbs

/-- The escape `json.dumps` applies to one character when
`ensure_ascii=False`: only `"`, `\` and control characters are escaped
(with the two-character shortcuts of Python's `ESCAPE_DCT`). -/
def escChar (c : Char) : List Char :=
  if c == '\"' then ['\\', '\"']
  else if c == '\\' then ['\\', '\\']
  else if c == '\n' then ['\\', 'n']
  else if c == '\r' then ['\\', 'r']
  else if c == '\t' then ['\\', 't']
  else if c == '\x08' then ['\\', 'b']
  else if c == '\x0c' then ['\\', 'f']
  else if c.toNat < 32 then
    ['\\', 'u', '0', '0', Md5.hexChar (c.toNat / 16), Md5.hexChar (c.toNat % 16)]
  else [c]

/-- Escape every character of a string body. -/
def escapeL (l : List Char) : List Char := l.foldr (fun c acc => escChar c ++ acc) []

/-- A JSON string literal: quote, escaped characters, quote. -/
def renderStr (s : String) : List Char := '\"' :: escapeL s.data ++ ['\"']

mutual

/-- `json.dumps(v, ensure_ascii=False)` with the default `", "` / `": "`
separators, as a character list. -/
def render : Json → List Char
  | .null => "null".data
  | .bool true => "true".data
  | .bool false => "false".data
  | .num n => intDec n
  | .str s => renderStr s
  | .arr xs => '[' :: renderElems xs ++ [']']
  | .obj kvs => '\x7b' :: renderMems kvs ++ ['\x7d']

/-- Array elements joined by `", "`. -/
def renderElems : List Json → List Char
  | [] => []
  | [x] => render x
  | x :: y :: rest => render x ++ ',' :: ' ' :: renderElems (y :: rest)

/-- Object members `"k": v` joined by `", "`. -/
def renderMems : List (String × Json) → List Char
  | [] => []
  | [(k, v)] => renderStr k ++ ':' :: ' ' :: render v
  | (k, v) :: m :: rest =>
    renderStr k ++ ':' :: ' ' :: render v ++ ',' :: ' ' :: renderMems (m :: rest)

end

/-- `json.dumps(v, ensure_ascii=False)`. -/
def json_dumps (v : Json) : String := ⟨render v⟩

/-! ## `json.loads` (the integer fragment of Python's strict decoder) -/

/-- JSON whitespace accepted between tokens by `json.loads`. -/
def isJsonWs (c : Char) : Bool := c == ' ' || c == '\t' || c == '\n' || c == '\r'

/-- Drop leading JSON whitespace. -/
def skipWs (cs : List Char) : List Char := cs.dropWhile isJsonWs

/-- ASCII digit test. -/
def isDigitCh (c : Char) : Bool := 48 ≤ c.toNat && c.toNat ≤ 57

/-- Value of an ASCII digit. -/
def digVal (c : Char) : Nat := c.toNat - 48

/-- Value of a hex digit, either case. -/
def hexVal (c : Char) : Option Nat :=
  if 48 ≤ c.toNat && c.toNat ≤ 57 then some (c.toNat - 48)
  else if 97 ≤ c.toNat && c.toNat ≤ 102 then some (c.toNat - 87)
  else if 65 ≤ c.toNat && c.toNat ≤ 70 then some (c.toNat - 55)
  else none

/-- Greedy run of decimal digits, accumulating left to right. -/
def pDigits : List Char → Nat → Nat × List Char
  | [], acc => (acc, [])
  | c :: cs, acc => if isDigitCh c then pDigits cs (10 * acc + digVal c) else (acc, c :: cs)

/-- The integer part of a JSON number: `0` takes no further digits
(JSON forbids leading zeros), otherwise a nonzero digit run. -/
def pIntBody : List Char → Option (Nat × List Char)
  | [] => none
  | c :: cs =>
    if c == '0' then some (0, cs)
    else if isDigitCh c then some (pDigits cs (digVal c))
    else none

/-- Body of a JSON string literal after the opening quote: unescapes
Python's recognized escapes; a bare control character is an error in the
decoder's (default) strict mode. `\uXXXX` becomes the code point
directly (the program never feeds surrogate escapes). -/
def pStr : List Char → Option (List Char × List Char)
  | [] => none
  | c :: cs =>
    if c == '\"' then some ([], cs)
    else if c == '\\' then
      match cs with
      | [] => none
      | e :: cs2 =>
        if e == '\"' then (pStr cs2).map (fun r => ('\"' :: r.1, r.2))
        else if e == '\\' then (pStr cs2).map (fun r => ('\\' :: r.1, r.2))
        else if e == '/' then (pStr cs2).map (fun r => ('/' :: r.1, r.2))
        else if e == 'n' then (pStr cs2).map (fun r => ('\n' :: r.1, r.2))
        else if e == 't' then (pStr cs2).map (fun r => ('\t' :: r.1, r.2))
        else if e == 'r' then (pStr cs2).map (fun r => ('\r' :: r.1, r.2))
        else if e == 'b' then (pStr cs2).map (fun r => ('\x08' :: r.1, r.2))
        else if e == 'f' then (pStr cs2).map (fun r => ('\x0c' :: r.1, r.2))
        else if e == 'u' then
          match cs2 with
          | h1 :: h2 :: h3 :: h4 :: cs3 =>
            match hexVal h1, hexVal h2, hexVal h3, hexVal h4 with
            | some a, some b, some c4, some d =>
              (pStr cs3).map (fun r => (Char.ofNat (4096 * a + 256 * b + 16 * c4 + d) :: r.1, r.2))
            | _, _, _, _ => none
          | _ => none
        else none
    else if c.toNat < 32 then none
    else (pStr cs).map (fun r => (c :: r.1, r.2))

/-- One object member `"k": v`, with `pval` parsing the value. -/
def pMember (pval : List Char → Option (Json × List Char)) (cs : List Char) :
    Option ((String × Json) × List Char) :=
  match skipWs cs with
  | [] => none
  | c :: cs1 =>
    if c == '\"' then
      match pStr cs1 with
      | some (kchars, cs2) =>
        match skipWs cs2 with
        | [] => none
        | c2 :: cs3 =>
          if c2 == ':' then (pval cs3).map (fun r => ((⟨kchars⟩, r.1), r.2)) else none
      | none => none
    else none

/-- Members after the first one: `}` closes, `,` continues. -/
def pMemRest (pval : List Char → Option (Json × List Char)) :
    Nat → List Char → Option (List (String × Json) × List Char)
  | 0, _ => none
  | fuel + 1, cs =>
    match skipWs cs with
    | [] => none
    | c :: cs2 =>
      if c == '\x7d' then some ([], cs2)
      else if c == ',' then
        match pMember pval cs2 with
        | some (kv, cs3) => (pMemRest pval fuel cs3).map (fun r => (kv :: r.1, r.2))
        | none => none
      else none

/-- Object body after `{`. -/
def pObj (pval : List Char → Option (Json × List Char)) (fuel : Nat) (cs : List Char) :
    Option (List (String × Json) × List Char) :=
  match skipWs cs with
  | [] => none
  | c :: cs1 =>
    if c == '\x7d' then some ([], cs1)
    else
      match pMember pval (c :: cs1) with
      | some (kv, cs2) => (pMemRest pval fuel cs2).map (fun r => (kv :: r.1, r.2))
      | none => none

/-- Array elements after the first one: `]` closes, `,` continues. -/
def pArrRest (pval : List Char → Option (Json × List Char)) :
    Nat → List Char → Option (List Json × List Char)
  | 0, _ => none
  | fuel + 1, cs =>
    match skipWs cs with
    | [] => none
    | c :: cs2 =>
      if c == ']' then some ([], cs2)
      else if c == ',' then
        match pval cs2 with
        | some (v, cs3) => (pArrRest pval fuel cs3).map (fun r => (v :: r.1, r.2))
        | none => none
      else none

/-- Array body after `[`. -/
def pArr (pval : List Char → Option (Json × List Char)) (fuel : Nat) (cs : List Char) :
    Option (List Json × List Char) :=
  match skipWs cs with
  | [] => none
  | c :: cs1 =>
    if c == ']' then some ([], cs1)
    else
      match pval (c :: cs1) with
      | some (v, cs2) => (pArrRest pval fuel cs2).map (fun r => (v :: r.1, r.2))
      | none => none

/-- One JSON value (leading whitespace allowed), fuel-driven so it both
evaluates in the kernel and terminates structurally. -/
def pVal : Nat → List Char → Option (Json × List Char)
  | 0, _ => none
  | fuel + 1, cs0 =>
    let cs := skipWs cs0
    match cs with
    | [] => none
    | c :: rest =>
      if c == '\x7b' then (pObj (pVal fuel) fuel rest).map (fun r => (Json.obj r.1, r.2))
      else if c == '[' then (pArr (pVal fuel) fuel rest).map (fun r => (Json.arr r.1, r.2))
      else if c == '\"' then (pStr rest).map (fun r => (Json.str ⟨r.1⟩, r.2))
      else if c == '-' then (pIntBody rest).map (fun r => (Json.num (-(r.1 : Int)), r.2))
      else if isDigitCh c then (pIntBody cs).map (fun r => (Json.num (r.1 : Int), r.2))
      else if "true".data.isPrefixOf cs then some (Json.bool true, cs.drop 4)
      else if "false".data.isPrefixOf cs then some (Json.bool false, cs.drop 5)
      else if "null".data.isPrefixOf cs then some (Json.null, cs.drop 4)
      else none

/-- `json.loads(s)`: one value, then only trailing whitespace; `none`
models the raised `json.decoder.JSONDecodeError`. The fuel bounds the
recursion depth; twice the input length plus two exceeds the depth any
input can demand, so the fuel never runs out on inputs the decoder
accepts. -/
def json_loads (s : String) : Option Json :=
  match pVal (2 * s.length + 2) s.data with
  | some (v, rest) => if (skipWs rest).isEmpty then some v else none
  | none => none

/-! ## Normalization of the model output (app.py lines 220–225) -/

/-- The ASCII whitespace stripped by Python's `str.strip()` (the model
restricts to the ASCII fragment). -/
def isPyWs (c : Char) : Bool :=
  c == ' ' || c == '\t' || c == '\n' || c == '\r' || c == '\x0b' || c == '\x0c'

/-- Python `str.strip()`. -/
def pyStrip (s : String) : String :=
  ⟨((s.data.dropWhile isPyWs).reverse.dropWhile isPyWs).reverse⟩

/-- Index of the first occurrence of `pat` in the haystack, starting at
offset `i`: the scan of both `in` and `re.search`. -/
def findSubAux : List Char → List Char → Nat → Option Nat
  | [], pat, i => if pat.isEmpty then some i else none
  | c :: rest, pat, i =>
    if pat.isPrefixOf (c :: rest) then some i else findSubAux rest pat (i + 1)

/-- Index of the first occurrence of `pat`. -/
def findSub (hay pat : List Char) : Option Nat := findSubAux hay pat 0

/-- The JSON-cleaning step of `analyze` (lines 220–225): strip, and if
`"```json"` occurs, keep only what the non-greedy `re.search` of
`r"```json(.*?)```"` captures (its leftmost match, DOTALL); a match
without a closing ` ``` ` leaves `re.search` returning `None`, so
`.group(1)` raises (`none`). Then `json.loads` the result. -/
def normalizeOutput (raw : String) : Option Json :=
  let cs := (pyStrip raw).data
  match findSub cs "```json".data with
  | some i =>
    let after := cs.drop (i + 7)
    match findSub after "```".data with
    | some j => json_loads ⟨after.take j⟩
    | none => none
  | none => json_loads ⟨cs⟩

/-! ## Exceptions and `try/except` -/

/-- Outcome of one Python expression that may raise: `.error` carries
`str(e)` of the raised exception. -/
abbrev PyResult (α : Type) := Except String α

/-- Python `try/except`: run the body; a raised exception is passed to
the handler. -/
def pyTry {α : Type} (body : PyResult α) (handler : String → PyResult α) : PyResult α :=
  match body with
  | .ok a => .ok a
  | .error e => handler e

/-! ## `extract_text_from_pdf` (app.py lines 100–107)

The `PdfReader` collaborator is an oracle: either the parse raises, or
it yields the pages' `extract_text()` results (`none` = Python `None`). -/

/-- The `try`-body of `extract_text_from_pdf`: join each page's
`extract_text() or ""` with newlines, in page order. -/
def extractRaw (pdf : PyResult (List (Option String))) : PyResult String :=
  pdf.map fun pages => String.intercalate "\n" (pages.map (fun p => p.getD ""))

/-- `extract_text_from_pdf` in the exception monad: any parse failure is
caught and becomes `""`. -/
def extractE (pdf : PyResult (List (Option String))) : PyResult String :=
  pyTry (extractRaw pdf) (fun _ => .ok "")

/-- `extract_text_from_pdf(file_bytes)` as the plain string the caller
sees. -/
def extract_text_from_pdf (pdf : PyResult (List (Option String))) : String :=
  match extractE pdf with
  | .ok s => s
  | .error _ => ""

/-! ## `CacheManager` (app.py lines 46–91)

The Redis client is an oracle: `getB`/`setB` say whether the one network
call of `get`/`set` raises. `tbl` is the set of live (unexpired) entries
of the shared backend, keyed by cache key, holding the stored text. -/

/-- The `try`-body of `CacheManager.get` on the shared backend:
`data = self.redis_client.get(key)` then
`json.loads(data) if data else None`; a decode failure raises. -/
def cacheGetSharedRaw (getB : PyResult Unit) (tbl : List (String × String)) (key : String) :
    PyResult (Option Json) :=
  match getB with
  | .error e => .error e
  | .ok _ =>
    match alistGet tbl key with
    | none => .ok none
    | some data =>
      if data == "" then .ok none
      else
        match json_loads data with
        | some v => .ok (some v)
        | none => .error "json.decoder.JSONDecodeError"

/-- `CacheManager.get` on the shared backend, with its bare `except`. -/
def cacheGetSharedE (getB : PyResult Unit) (tbl : List (String × String)) (key : String) :
    PyResult (Option Json) :=
  pyTry (cacheGetSharedRaw getB tbl key) (fun _ => .ok none)

/-- The value `CacheManager.get` returns on the shared backend. -/
def cacheGetShared (getB : PyResult Unit) (tbl : List (String × String)) (key : String) :
    Option Json :=
  match cacheGetSharedE getB tbl key with
  | .ok r => r
  | .error _ => none

/-- The `try`-body of `CacheManager.set` on the shared backend:
`setex(key, expire, json.dumps(data))`. The TTL only bounds the entry's
lifetime; `tbl` holds live entries, so within the TTL the entry is the
serialized text. -/
def cacheSetSharedRaw (setB : PyResult Unit) (tbl : List (String × String)) (key : String)
    (v : Json) : PyResult (List (String × String)) :=
  match setB with
  | .error e => .error e
  | .ok _ => .ok (alistSet tbl key (json_dumps v))

/-- `CacheManager.set` on the shared backend: a raise is logged
(`Redis Set Error`) and swallowed; returns the store and the log lines. -/
def cacheSetSharedE (setB : PyResult Unit) (tbl : List (String × String)) (key : String)
    (v : Json) : PyResult (List (String × String) × List String) :=
  pyTry ((cacheSetSharedRaw setB tbl key v).map (fun t => (t, [])))
    (fun e => .ok (tbl, ["Redis Set Error: " ++ e]))

/-- The store and log `CacheManager.set` leaves behind on the shared
backend. -/
def cacheSetShared (setB : PyResult Unit) (tbl : List (String × String)) (key : String)
    (v : Json) : List (String × String) × List String :=
  match cacheSetSharedE setB tbl key v with
  | .ok r => r
  | .error _ => (tbl, [])

/-! ## The process-local backend

Python's `local_cache` dict stores object references and
`cached_data["_is_cached"] = True` mutates the referenced object, so the
local backend is modelled with an explicit heap: `tbl` maps keys to
addresses into `heap`. -/

/-- State of the process-local cache: a heap of JSON objects and the
`local_cache` mapping from keys to heap addresses. -/
structure LocalState where
  heap : List Json
  tbl : List (String × Nat)

/-- `CacheManager.get` on the local backend: `self.local_cache.get(key)`,
dereferenced. -/
def cacheGetLocal (s : LocalState) (key : String) : Option Json :=
  (alistGet s.tbl key).map (fun a => s.heap.getD a .null)

/-- `CacheManager.set` on the local backend:
`self.local_cache[key] = data` stores a reference to (the freshly
allocated) `data`. -/
def cacheSetLocal (s : LocalState) (key : String) (v : Json) : LocalState :=
  ⟨s.heap ++ [v], alistSet s.tbl key s.heap.length⟩

/-! ## The `analyze` pipeline (app.py lines 187–234) -/

/-- What one request run produces: the HTTP response (`.error` is the
`jsonify({"error": ...}), status` path), the cache state left behind,
and whether the remote LLM endpoint was invoked. -/
structure RunOut (σ : Type) where
  response : Except (String × Nat) Json
  state : σ
  calledLLM : Bool

/-- The `analyze` route on the local backend. Oracles: `pdf` is the
PdfReader outcome for `file_bytes`, `llm` the outcome of
`call_qwen_analysis` (raw completion text, or the exception from a
missing key / network error / malformed envelope). -/
def analyzeLocal (s : LocalState) (file_bytes : List Nat) (jd : String)
    (pdf : PyResult (List (Option String))) (llm : PyResult String) : RunOut LocalState :=
  if file_bytes.isEmpty then ⟨.error ("Empty file", 400), s, false⟩
  else
    let key := generate_key file_bytes jd
    let hitAddr : Option Nat :=
      match alistGet s.tbl key with
      | some a => if (s.heap.getD a .null).truthy then some a else none
      | none => none
    match hitAddr with
    | some a =>
      match (s.heap.getD a .null).setItem "_is_cached" (.bool true) with
      | some v2 => ⟨.ok v2, ⟨s.heap.set a v2, s.tbl⟩, false⟩
      | none => ⟨.error ("TypeError", 500), s, false⟩
    | none =>
      let resume_text := extract_text_from_pdf pdf
      if (pyStrip resume_text).isEmpty then ⟨.error ("PDF解析为空，请检查文件", 400), s, false⟩
      else
        match llm with
        | .error e => ⟨.error (e, 500), s, true⟩
        | .ok raw =>
          match normalizeOutput raw with
          | some final_data => ⟨.ok final_data, cacheSetLocal s key final_data, true⟩
          | none => ⟨.error ("json.decoder.JSONDecodeError", 500), s, true⟩

/-- The miss path of `analyze` on the shared backend. -/
def missShared (tbl : List (String × String)) (key : String) (setB : PyResult Unit)
    (pdf : PyResult (List (Option String))) (llm : PyResult String) :
    RunOut (List (String × String)) :=
  let resume_text := extract_text_from_pdf pdf
  if (pyStrip resume_text).isEmpty then ⟨.error ("PDF解析为空，请检查文件", 400), tbl, false⟩
  else
    match llm with
    | .error e => ⟨.error (e, 500), tbl, true⟩
    | .ok raw =>
      match normalizeOutput raw with
      | some final_data => ⟨.ok final_data, (cacheSetShared setB tbl key final_data).1, true⟩
      | none => ⟨.error ("json.decoder.JSONDecodeError", 500), tbl, true⟩

/-- The `analyze` route on the shared backend. On a hit,
`json.loads` built a fresh object, so the flag assignment touches only
that copy; the stored text is untouched. -/
def analyzeShared (tbl : List (String × String)) (file_bytes : List Nat) (jd : String)
    (getB setB : PyResult Unit) (pdf : PyResult (List (Option String)))
    (llm : PyResult String) : RunOut (List (String × String)) :=
  if file_bytes.isEmpty then ⟨.error ("Empty file", 400), tbl, false⟩
  else
    let key := generate_key file_bytes jd
    match cacheGetShared getB tbl key with
    | some v =>
      if v.truthy then
        match v.setItem "_is_cached" (.bool true) with
        | some v2 => ⟨.ok v2, tbl, false⟩
        | none => ⟨.error ("TypeError", 500), tbl, false⟩
      else missShared tbl key setB pdf llm
    | none => missShared tbl key setB pdf llm

/-! ## Fuel measure for the parser correctness proof -/

mutual

/-- Enough `pVal` fuel to parse the rendering of a value. -/
def jfuel : Json → Nat
  | .arr xs => jfuelL xs + 2
  | .obj kvs => jfuelM kvs + 2
  | .null => 1
  | .bool _ => 1
  | .num _ => 1
  | .str _ => 1

/-- Fuel bound for a list of array elements. -/
def jfuelL : List Json → Nat
  | [] => 0
  | x :: xs => max (jfuel x) (jfuelL xs) + 1

/-- Fuel bound for a list of object members. -/
def jfuelM : List (String × Json) → Nat
  | [] => 0
  | kv :: kvs => max (jfuel kv.2) (jfuelM kvs) + 1

end

/-- `true` when the text does not start with a digit (so a greedy number
parse just before it stops exactly there). -/
def noLeadDigit : List Char → Bool
  | [] => true
  | c :: _ => !isDigitCh c

/-- The text after one array element: the remaining elements, each
prefixed by `", "`, then `]` and the trailing text. -/
def arrTail (xs : List Json) (rest : List Char) : List Char :=
  xs.foldr (fun x acc => ',' :: ' ' :: render x ++ acc) (']' :: rest)

/-- The text after one object member: the remaining members, each
prefixed by `", "`, then `}` and the trailing text. -/
def objTail (kvs : List (String × Json)) (rest : List Char) : List Char :=
  kvs.foldr (fun kv acc => ',' :: ' ' :: renderStr kv.1 ++ ':' :: ' ' :: render kv.2 ++ acc)
    ('\x7d' :: rest)

/-! ## Concrete scenario constants used in witnesses -/

/-- A successful one-page PDF parse with extractable text. -/
def pdfOk : PyResult (List (Option String)) := .ok [some "resume text"]

/-- A well-formed completion: the serialized analysis result. -/
def rawOk : String := "\x7b\"match_score\": 88\x7d"

/-- The parsed analysis result of `rawOk`. -/
def resultOk : Json := .obj [("match_score", .num 88)]

/-- The result of `resultOk` annotated with the cache-served flag. -/
def resultOkFlagged : Json := .obj [("match_score", .num 88), ("_is_cached", .bool true)]

/-- First request against an empty local cache: a miss that computes and
stores `resultOk`. -/
def runLocal1 : RunOut LocalState := analyzeLocal ⟨[], []⟩ [1] "" pdfOk (.ok rawOk)

/-- Second identical request: a hit on the stored entry. -/
def runLocal2 : RunOut LocalState := analyzeLocal runLocal1.state [1] "" pdfOk (.ok rawOk)

/-! # Helper lemmas -/

theorem alistGet_alistSet {β : Type} (l : List (String × β)) (k : String) (b : β) :
    alistGet (alistSet l k b) k = some b := by
  induction l with
  | nil => simp [alistSet, alistGet]
  | cons p rest ih =>
    obtain ⟨k0, c⟩ := p
    by_cases h : k0 == k
    · simp [alistSet, h, alistGet]
    · simp [alistSet, h, alistGet, ih]

/-! # C8: the extractor never raises -/

/-- C8. `extract_text_from_pdf` returns a string on every PdfReader
outcome and never lets an exception escape: a successful parse yields
the pages' texts joined by newlines in page order, and any parse failure
yields `""`. -/
theorem extract_text_total (pages : List (Option String)) (e : String) :
    (∀ pdf, (extractE pdf).isOk = true) ∧
    extract_text_from_pdf (.ok pages) =
      String.intercalate "\n" (pages.map (fun p => p.getD "")) ∧
    extract_text_from_pdf (.error e) = "" := by
  refine ⟨fun pdf => ?_, ?_, ?_⟩
  · rcases pdf with e' | pages' <;>
      simp [extractE, extractRaw, pyTry, Except.map, Except.isOk, Except.toBool]
  · simp [extract_text_from_pdf, extractE, extractRaw, pyTry, Except.map]
  · simp [extract_text_from_pdf, extractE, extractRaw, pyTry, Except.map]

/-! # C5: fail-open cache read -/

/-- C5. `CacheManager.get` on the shared backend is fail-open: it never
raises (its `try` body's outcome is always caught), a raising backend
lookup yields `none`, and a stored text that fails to deserialize yields
`none`. -/
theorem cache_get_fail_open (tbl : List (String × String)) (key e : String)
    (getB : PyResult Unit) :
    (cacheGetSharedE getB tbl key).isOk = true ∧
    cacheGetShared (.error e) tbl key = none ∧
    (∀ data, json_loads data = none → cacheGetShared (.ok ()) ((key, data) :: tbl) key = none) := by
  refine ⟨?_, ?_, ?_⟩
  · rcases getB with e' | u
    · simp [cacheGetSharedE, pyTry, cacheGetSharedRaw, Except.isOk, Except.toBool]
    · simp only [cacheGetSharedE, pyTry, cacheGetSharedRaw]
      cases alistGet tbl key with
      | none => simp [Except.isOk, Except.toBool]
      | some data =>
        by_cases hd : data == "" <;> cases hjson : json_loads data <;>
          simp [hd, hjson, Except.isOk, Except.toBool]
  · simp [cacheGetShared, cacheGetSharedE, pyTry, cacheGetSharedRaw]
  · intro data h
    by_cases hd : data == "" <;>
      simp [cacheGetShared, cacheGetSharedE, pyTry, cacheGetSharedRaw, alistGet, hd, h]

/-- C5 witness: a raising backend and a corrupt stored entry (`"{"`),
both served as a plain miss. -/
theorem cache_get_fail_open_witness :
    cacheGetShared (.error "ConnectionError") [("k", "\x7b")] "k" = none ∧
    cacheGetShared (.ok ()) [("k", "\x7b")] "k" = none :=
  ⟨(cache_get_fail_open [("k", "\x7b")] "k" "ConnectionError" (.error "ConnectionError")).2.1,
   (cache_get_fail_open [] "k" "ConnectionError" (.ok ())).2.2 "\x7b" rfl⟩

/-! # C6: fail-silent cache write -/

/-- The response of the miss path does not depend on the setex outcome,
and with a raising setex the store is left unchanged. -/
theorem missShared_setB (tbl : List (String × String)) (key e : String) (setB : PyResult Unit)
    (pdf : PyResult (List (Option String))) (llm : PyResult String) :
    (missShared tbl key (.error e) pdf llm).response = (missShared tbl key setB pdf llm).response ∧
    (missShared tbl key (.error e) pdf llm).state = tbl := by
  by_cases hx : (pyStrip (extract_text_from_pdf pdf)).isEmpty
  · simp [missShared, hx]
  · rcases llm with e' | raw
    · simp [missShared, hx]
    · cases hnorm : normalizeOutput raw <;>
        simp [missShared, hx, hnorm, cacheSetShared, cacheSetSharedE, pyTry, cacheSetSharedRaw,
          Except.map]

/-- C6. `CacheManager.set` on the shared backend is fail-silent: its
body's outcome is always caught, a raising `setex` only logs
`Redis Set Error` and leaves the store unchanged, a successful one
stores the serialized value, and the surrounding `analyze` request is
unaffected by a raising write: its response equals the response with a
healthy write, and its cache state is simply the untouched store. -/
theorem cache_set_fail_silent (tbl : List (String × String)) (key e jd : String) (v : Json)
    (setB getB : PyResult Unit) (fb : List Nat) (pdf : PyResult (List (Option String)))
    (llm : PyResult String) :
    (cacheSetSharedE setB tbl key v).isOk = true ∧
    cacheSetShared (.error e) tbl key v = (tbl, ["Redis Set Error: " ++ e]) ∧
    cacheSetShared (.ok ()) tbl key v = (alistSet tbl key (json_dumps v), []) ∧
    (analyzeShared tbl fb jd getB (.error e) pdf llm).response
      = (analyzeShared tbl fb jd getB setB pdf llm).response ∧
    (analyzeShared tbl fb jd getB (.error e) pdf llm).state = tbl := by
  refine ⟨?_, ?_, ?_, ?_, ?_⟩
  · rcases setB with e' | u <;>
      simp [cacheSetSharedE, pyTry, cacheSetSharedRaw, Except.map, Except.isOk, Except.toBool]
  · simp [cacheSetShared, cacheSetSharedE, pyTry, cacheSetSharedRaw, Except.map]
  · simp [cacheSetShared, cacheSetSharedE, pyTry, cacheSetSharedRaw, Except.map]
  · by_cases hfb : fb.isEmpty
    · simp [analyzeShared, hfb]
    · simp only [analyzeShared, hfb, Bool.false_eq_true, if_false]
      cases cacheGetShared getB tbl (generate_key fb jd) with
      | none => exact (missShared_setB tbl _ e setB pdf llm).1
      | some v' =>
        by_cases ht : v'.truthy
        · cases h2 : v'.setItem "_is_cached" (.bool true) <;> simp [ht, h2]
        · simp only [ht, Bool.false_eq_true, if_false]
          exact (missShared_setB tbl _ e setB pdf llm).1
  · by_cases hfb : fb.isEmpty
    · simp [analyzeShared, hfb]
    · simp only [analyzeShared, hfb, Bool.false_eq_true, if_false]
      cases cacheGetShared getB tbl (generate_key fb jd) with
      | none => exact (missShared_setB tbl _ e (.ok ()) pdf llm).2
      | some v' =>
        by_cases ht : v'.truthy
        · cases h2 : v'.setItem "_is_cached" (.bool true) <;> simp [ht, h2]
        · simp only [ht, Bool.false_eq_true, if_false]
          exact (missShared_setB tbl _ e (.ok ()) pdf llm).2

/-! # C4: normalization fence-stripping -/

/-- C4. Normalization strips, extracts a labeled fence when present, and
otherwise parses the whole stripped text; the fenced and bare example
both yield `{"a": 1}`, non-JSON text fails (is an error, not a default
value), and without a fence the result is exactly `json.loads` of the
stripped text. -/
theorem normalizer_fence_stripping :
    normalizeOutput "```json\n\x7b\"a\":1\x7d\n```" = some (.obj [("a", .num 1)]) ∧
    normalizeOutput "\x7b\"a\":1\x7d" = some (.obj [("a", .num 1)]) ∧
    normalizeOutput "I am not JSON" = none ∧
    (∀ raw, findSub (pyStrip raw).data "```json".data = none →
      normalizeOutput raw = json_loads (pyStrip raw)) := by
  refine ⟨rfl, rfl, rfl, fun raw h => ?_⟩
  simp only [normalizeOutput, h]

/-! # C1 and C3: the fingerprint -/

theorem byteHex_foldr_length (l : List Nat) :
    (l.foldr (fun b acc => Md5.byteHex b ++ acc) []).length = 2 * l.length := by
  induction l with
  | nil => simp
  | cons b rest ih =>
    have hb : (Md5.byteHex b).length = 2 := rfl
    rw [List.foldr_cons, List.length_append, ih, hb, List.length_cons]
    omega

theorem digestBytes_length (m : List Nat) : (Md5.digestBytes m).length = 16 := by
  simp [Md5.digestBytes, Md5.leBytes]

theorem hexdigest_data_length (m : List Nat) : (Md5.hexdigest m).data.length = 32 := by
  show ((Md5.digestBytes m).foldr (fun b acc => Md5.byteHex b ++ acc) []).length = 32
  rw [byteHex_foldr_length, digestBytes_length]

theorem hexdigest_length (m : List Nat) : (Md5.hexdigest m).length = 32 :=
  hexdigest_data_length m

/-- C1 (amended). Two generated keys agree exactly when the MD5 hex
digests of the two byte inputs agree and the MD5 hex digests of the two
UTF-8–encoded texts agree: the fixed-width digests make the
`resume:v3:`-prefixed, colon-separated format injective in its two
digest fields, so key equality is precisely digest equality — the same
inputs always give the same key, but distinct inputs give distinct keys
only up to MD5 collisions. -/
theorem generate_key_eq_iff_digests_eq (b1 b2 : List Nat) (t1 t2 : String) :
    generate_key b1 t1 = generate_key b2 t2 ↔
      (Md5.hexdigest b1 = Md5.hexdigest b2 ∧
        Md5.hexdigest (utf8Encode t1) = Md5.hexdigest (utf8Encode t2)) := by
  constructor
  · intro h
    have hd := congrArg String.data h
    simp only [generate_key, String.data_append, List.append_assoc] at hd
    have hd2 := List.append_cancel_left hd
    have hlen : (Md5.hexdigest b1).data.length = (Md5.hexdigest b2).data.length := by
      rw [hexdigest_data_length, hexdigest_data_length]
    obtain ⟨h1, h2⟩ := List.append_inj hd2 hlen
    refine ⟨String.ext h1, String.ext ?_⟩
    have h3 := List.append_cancel_left h2
    exact h3
  · intro ⟨h1, h2⟩
    simp only [generate_key, h1, h2]

set_option maxRecDepth 40000 in
/-- C1 counterexample: the classical MD5 collision pair gives two
distinct byte sequences whose generated keys (with equal texts) are
equal, so key equality does not imply input equality. -/
theorem c1_counterexample :
    ¬ ((generate_key collMsg1 "" = generate_key collMsg2 "") ↔
        (collMsg1 = collMsg2 ∧ ("" : String) = "")) := by
  intro hiff
  have hkey : generate_key collMsg1 "" = generate_key collMsg2 "" := by decide
  have hne : collMsg1 ≠ collMsg2 := by decide
  exact hne (hiff.mp hkey).1

theorem hexChar_mem_hex : ∀ k, k < 16 →
    ("0123456789abcdef".data.contains (Md5.hexChar k)) = true := by decide

theorem foldr_byteHex_all_hex (l : List Nat) (hl : ∀ x ∈ l, x < 256) :
    ((l.foldr (fun b acc => Md5.byteHex b ++ acc) []).all
      (fun c => "0123456789abcdef".data.contains c)) = true := by
  induction l with
  | nil => simp
  | cons b rest ih =>
    have hb : b < 256 := hl b (by simp)
    have h1 : b / 16 < 16 := by omega
    have h2 : b % 16 < 16 := Nat.mod_lt _ (by norm_num)
    simp only [List.foldr_cons, Md5.byteHex, List.cons_append, List.nil_append, List.all_cons,
      hexChar_mem_hex _ h1, hexChar_mem_hex _ h2, Bool.true_and]
    exact ih (fun x hx => hl x (by simp [hx]))

theorem digestBytes_lt (m : List Nat) : ∀ x ∈ Md5.digestBytes m, x < 256 := by
  intro x hx
  simp only [Md5.digestBytes, Md5.leBytes, List.mem_append, List.mem_map, List.mem_range] at hx
  rcases hx with ((⟨i, _, rfl⟩ | ⟨i, _, rfl⟩) | ⟨i, _, rfl⟩) | ⟨i, _, rfl⟩ <;>
    exact Nat.mod_lt _ (by norm_num)

theorem hexdigest_all_hex (m : List Nat) :
    ((Md5.hexdigest m).data.all (fun c => "0123456789abcdef".data.contains c)) = true := by
  show (((Md5.digestBytes m).foldr (fun b acc => Md5.byteHex b ++ acc) []).all
    (fun c => "0123456789abcdef".data.contains c)) = true
  exact foldr_byteHex_all_hex _ (digestBytes_lt m)

set_option maxRecDepth 40000 in
/-- C3 (amended). The key is exactly
`"resume:v3:" ++ hex(md5(document_bytes)) ++ ":" ++ hex(md5(utf8(jd_text)))`:
the namespace is the fixed tag `resume:v3`, each digest is 32 lowercase
hex characters, and the hash is MD5 (anchored by the RFC 1321 test
vectors for `""` and `"abc"`) — a hash of cryptographic design whose
collision resistance is, however, broken. -/
theorem generate_key_format (b : List Nat) (t : String) :
    generate_key b t
      = "resume:v3:" ++ Md5.hexdigest b ++ ":" ++ Md5.hexdigest (utf8Encode t) ∧
    (Md5.hexdigest b).length = 32 ∧
    ((Md5.hexdigest b).data.all (fun c => "0123456789abcdef".data.contains c)) = true ∧
    Md5.hexdigest [] = "d41d8cd98f00b204e9800998ecf8427e" ∧
    Md5.hexdigest [97, 98, 99] = "900150983cd24fb0d6963f7d28e17f72" := by
  have h1 : Md5.hexdigest [] = "d41d8cd98f00b204e9800998ecf8427e" := by decide
  have h2 : Md5.hexdigest [97, 98, 99] = "900150983cd24fb0d6963f7d28e17f72" := by decide
  exact ⟨rfl, hexdigest_length b, hexdigest_all_hex b, h1, h2⟩

set_option maxRecDepth 40000 in
/-- C3 counterexample: MD5, the hash `generate_key` uses for both
digests, has an explicit collision (Wang et al.), so the digests are not
collision resistant: the spec's demanded cryptographic strength
(negligible collision probability) fails. -/
theorem c3_counterexample :
    Md5.hexdigest collMsg1 = Md5.hexdigest collMsg2 ∧ collMsg1 ≠ collMsg2 := by
  have h1 : Md5.hexdigest collMsg1 = Md5.hexdigest collMsg2 := by decide
  have h2 : collMsg1 ≠ collMsg2 := by decide
  exact ⟨h1, h2⟩

/-! # C2: the cache-served flag on a hit -/

set_option maxRecDepth 40000 in
/-- C2 counterexample: on the local backend, after one miss that stores
the analysis result and one hit on it, the value persisted in the cache
store itself now carries `"_is_cached": true` — the hit mutated the
stored entry (the response and the stored dict are the same object), so
the flag is not transient there. -/
theorem c2_counterexample :
    runLocal2.response = .ok resultOkFlagged ∧
    runLocal2.calledLLM = false ∧
    cacheGetLocal runLocal2.state (generate_key [1] "") = some resultOkFlagged :=
  ⟨rfl, rfl, rfl⟩

/-- C2 (amended). On a truthy hit, the response is the cached object
annotated with `"_is_cached": true`. On the shared backend the stored
text is left unchanged by the hit (the flag is set on the freshly
deserialized copy only); on the local backend the response aliases the
stored entry, so the persisted value after the hit is exactly the
flag-annotated object. -/
theorem hit_flag_transient_shared_persisted_local :
    (∀ (tbl : List (String × String)) (fb : List Nat) (jd : String) (getB setB : PyResult Unit)
        (pdf : PyResult (List (Option String))) (llm : PyResult String)
        (kvs : List (String × Json)),
      fb.isEmpty = false →
      cacheGetShared getB tbl (generate_key fb jd) = some (.obj kvs) →
      (Json.obj kvs).truthy = true →
      analyzeShared tbl fb jd getB setB pdf llm
        = ⟨.ok (.obj (alistSet kvs "_is_cached" (.bool true))), tbl, false⟩) ∧
    (∀ (s : LocalState) (fb : List Nat) (jd : String) (pdf : PyResult (List (Option String)))
        (llm : PyResult String) (a : Nat) (kvs : List (String × Json)),
      fb.isEmpty = false →
      alistGet s.tbl (generate_key fb jd) = some a →
      s.heap.getD a .null = .obj kvs →
      (Json.obj kvs).truthy = true →
      analyzeLocal s fb jd pdf llm
        = ⟨.ok (.obj (alistSet kvs "_is_cached" (.bool true))),
            ⟨s.heap.set a (.obj (alistSet kvs "_is_cached" (.bool true))), s.tbl⟩, false⟩) ∧
    (∀ kvs, alistGet (alistSet kvs "_is_cached" (Json.bool true)) "_is_cached"
        = some (Json.bool true)) := by
  refine ⟨?_, ?_, fun kvs => alistGet_alistSet kvs _ _⟩
  · intro tbl fb jd getB setB pdf llm kvs hfb hget ht
    simp [analyzeShared, hfb, hget, ht, Json.setItem]
  · intro s fb jd pdf llm a kvs hfb hlook hheap ht
    have hheap2 : s.heap[a]?.getD Json.null = Json.obj kvs := by
      rw [← List.getD_eq_getElem?_getD]; exact hheap
    simp [analyzeLocal, hfb, hlook, hheap2, ht, Json.setItem]

set_option maxRecDepth 40000 in
/-- C2 witness: a concrete hit on each backend; the shared store is
untouched, the local heap entry is overwritten with the flagged object. -/
theorem hit_flag_witness :
    analyzeShared [(generate_key [1] "", json_dumps resultOk)] [1] "" (.ok ()) (.ok ())
        pdfOk (.ok rawOk)
      = ⟨.ok (.obj (alistSet [("match_score", .num 88)] "_is_cached" (.bool true))),
          [(generate_key [1] "", json_dumps resultOk)], false⟩ ∧
    analyzeLocal ⟨[resultOk], [(generate_key [1] "", 0)]⟩ [1] "" pdfOk (.ok rawOk)
      = ⟨.ok (.obj (alistSet [("match_score", .num 88)] "_is_cached" (.bool true))),
          ⟨[resultOk].set 0 (.obj (alistSet [("match_score", .num 88)] "_is_cached" (.bool true))),
            [(generate_key [1] "", 0)]⟩, false⟩ :=
  ⟨hit_flag_transient_shared_persisted_local.1 _ [1] "" (.ok ()) (.ok ()) pdfOk (.ok rawOk)
      [("match_score", .num 88)] rfl rfl rfl,
   hit_flag_transient_shared_persisted_local.2.1 ⟨[resultOk], [(generate_key [1] "", 0)]⟩ [1] ""
      pdfOk (.ok rawOk) 0 [("match_score", .num 88)] rfl rfl rfl rfl⟩

/-! # C7: error atomicity of the pipeline -/

/-- C7. When the pipeline actually reaches the remote call (miss,
non-empty extraction) and the call raises, or the call succeeds but its
output cannot be normalized, the request ends in an error response and
the cache state is exactly the state before the request, on both
backends. -/
theorem pipeline_error_atomicity :
    (∀ (s : LocalState) (fb : List Nat) (jd : String) (pdf : PyResult (List (Option String)))
        (e : String),
      fb.isEmpty = false →
      (∀ a, alistGet s.tbl (generate_key fb jd) = some a →
        (s.heap.getD a .null).truthy = false) →
      (pyStrip (extract_text_from_pdf pdf)).isEmpty = false →
      analyzeLocal s fb jd pdf (.error e) = ⟨.error (e, 500), s, true⟩) ∧
    (∀ (s : LocalState) (fb : List Nat) (jd : String) (pdf : PyResult (List (Option String)))
        (raw : String),
      fb.isEmpty = false →
      (∀ a, alistGet s.tbl (generate_key fb jd) = some a →
        (s.heap.getD a .null).truthy = false) →
      (pyStrip (extract_text_from_pdf pdf)).isEmpty = false →
      normalizeOutput raw = none →
      analyzeLocal s fb jd pdf (.ok raw)
        = ⟨.error ("json.decoder.JSONDecodeError", 500), s, true⟩) ∧
    (∀ (tbl : List (String × String)) (fb : List Nat) (jd : String) (getB setB : PyResult Unit)
        (pdf : PyResult (List (Option String))) (e : String),
      fb.isEmpty = false →
      (∀ v, cacheGetShared getB tbl (generate_key fb jd) = some v → v.truthy = false) →
      (pyStrip (extract_text_from_pdf pdf)).isEmpty = false →
      analyzeShared tbl fb jd getB setB pdf (.error e) = ⟨.error (e, 500), tbl, true⟩) ∧
    (∀ (tbl : List (String × String)) (fb : List Nat) (jd : String) (getB setB : PyResult Unit)
        (pdf : PyResult (List (Option String))) (raw : String),
      fb.isEmpty = false →
      (∀ v, cacheGetShared getB tbl (generate_key fb jd) = some v → v.truthy = false) →
      (pyStrip (extract_text_from_pdf pdf)).isEmpty = false →
      normalizeOutput raw = none →
      analyzeShared tbl fb jd getB setB pdf (.ok raw)
        = ⟨.error ("json.decoder.JSONDecodeError", 500), tbl, true⟩) := by
  refine ⟨?_, ?_, ?_, ?_⟩
  · intro s fb jd pdf e hfb hmiss hx
    cases hl : alistGet s.tbl (generate_key fb jd) with
    | none => simp [analyzeLocal, hfb, hl, hx]
    | some a =>
      have h2 : (s.heap[a]?.getD Json.null).truthy = false := by
        rw [← List.getD_eq_getElem?_getD]; exact hmiss a hl
      simp [analyzeLocal, hfb, hl, h2, hx]
  · intro s fb jd pdf raw hfb hmiss hx hnorm
    cases hl : alistGet s.tbl (generate_key fb jd) with
    | none => simp [analyzeLocal, hfb, hl, hx, hnorm]
    | some a =>
      have h2 : (s.heap[a]?.getD Json.null).truthy = false := by
        rw [← List.getD_eq_getElem?_getD]; exact hmiss a hl
      simp [analyzeLocal, hfb, hl, h2, hx, hnorm]
  · intro tbl fb jd getB setB pdf e hfb hmiss hx
    cases hg : cacheGetShared getB tbl (generate_key fb jd) with
    | none => simp [analyzeShared, hfb, hg, missShared, hx]
    | some v => simp [analyzeShared, hfb, hg, hmiss v hg, missShared, hx]
  · intro tbl fb jd getB setB pdf raw hfb hmiss hx hnorm
    cases hg : cacheGetShared getB tbl (generate_key fb jd) with
    | none => simp [analyzeShared, hfb, hg, missShared, hx, hnorm]
    | some v => simp [analyzeShared, hfb, hg, hmiss v hg, missShared, hx, hnorm]

/-- C7 witness: a failing remote call on an empty local cache, and a
non-normalizable completion on an empty shared cache; both end in an
error with the cache exactly as before. -/
theorem pipeline_error_atomicity_witness :
    analyzeLocal ⟨[], []⟩ [1] "" pdfOk (.error "LLM Error")
      = ⟨.error ("LLM Error", 500), ⟨[], []⟩, true⟩ ∧
    analyzeShared [] [1] "" (.ok ()) (.ok ()) pdfOk (.ok "I am not JSON")
      = ⟨.error ("json.decoder.JSONDecodeError", 500), [], true⟩ :=
  ⟨pipeline_error_atomicity.1 ⟨[], []⟩ [1] "" pdfOk "LLM Error" rfl
      (fun a h => by simp [alistGet] at h) rfl,
   pipeline_error_atomicity.2.2.2 [] [1] "" (.ok ()) (.ok ()) pdfOk "I am not JSON" rfl
      (fun v h => by simp [cacheGetShared, cacheGetSharedE, pyTry, cacheGetSharedRaw,
        alistGet] at h) rfl rfl⟩

/-! # C10: a falsy cached value is a miss -/

theorem cacheGetLocal_cacheSetLocal (s : LocalState) (k : String) (v : Json) :
    cacheGetLocal (cacheSetLocal s k v) k = some v := by
  have h1 : alistGet (alistSet s.tbl k s.heap.length) k = some s.heap.length :=
    alistGet_alistSet _ _ _
  simp only [cacheGetLocal, cacheSetLocal, h1, Option.map]
  rw [List.getD_eq_getElem?_getD, List.getElem?_append_right (Nat.le_refl _)]
  simp

/-- C10. A falsy value stored under the fingerprint (such as the empty
mapping produced by normalizing `"{}"`) fails the `if cached_data:`
test, so the request is handled as a miss: the stored entry is not
served, the remote service is invoked again (`calledLLM = true`), and on
success the entry under the same fingerprint is overwritten with the
fresh result — on both backends. -/
theorem falsy_cached_entry_is_miss :
    (∀ (s : LocalState) (fb : List Nat) (jd : String) (pdf : PyResult (List (Option String)))
        (raw : String) (v : Json) (a : Nat),
      fb.isEmpty = false →
      alistGet s.tbl (generate_key fb jd) = some a →
      (s.heap.getD a .null).truthy = false →
      (pyStrip (extract_text_from_pdf pdf)).isEmpty = false →
      normalizeOutput raw = some v →
      analyzeLocal s fb jd pdf (.ok raw)
          = ⟨.ok v, cacheSetLocal s (generate_key fb jd) v, true⟩ ∧
        cacheGetLocal (cacheSetLocal s (generate_key fb jd) v) (generate_key fb jd) = some v) ∧
    (∀ (tbl : List (String × String)) (fb : List Nat) (jd : String) (setB : PyResult Unit)
        (pdf : PyResult (List (Option String))) (raw ds : String) (v sv : Json),
      fb.isEmpty = false →
      alistGet tbl (generate_key fb jd) = some ds →
      json_loads ds = some sv →
      sv.truthy = false →
      (pyStrip (extract_text_from_pdf pdf)).isEmpty = false →
      normalizeOutput raw = some v →
      analyzeShared tbl fb jd (.ok ()) setB pdf (.ok raw)
          = ⟨.ok v, (cacheSetShared setB tbl (generate_key fb jd) v).1, true⟩ ∧
        alistGet (cacheSetShared (.ok ()) tbl (generate_key fb jd) v).1 (generate_key fb jd)
          = some (json_dumps v)) := by
  constructor
  · intro s fb jd pdf raw v a hfb hlook ht hx hnorm
    have ht2 : (s.heap[a]?.getD Json.null).truthy = false := by
      rw [← List.getD_eq_getElem?_getD]; exact ht
    exact ⟨by simp [analyzeLocal, hfb, hlook, ht2, hx, hnorm],
      cacheGetLocal_cacheSetLocal s _ v⟩
  · intro tbl fb jd setB pdf raw ds v sv hfb hlook hload ht hx hnorm
    have hne : (ds == "") = false := by
      rcases h : ds == "" with _ | _
      · rfl
      · exfalso
        have : ds = "" := by simpa using h
        rw [this] at hload
        rw [show json_loads "" = none from rfl] at hload
        exact Option.noConfusion hload
    have hget : cacheGetShared (.ok ()) tbl (generate_key fb jd) = some sv := by
      simp [cacheGetShared, cacheGetSharedE, pyTry, cacheGetSharedRaw, hlook, hne, hload]
    refine ⟨by simp [analyzeShared, hfb, hget, ht, missShared, hx, hnorm], ?_⟩
    simp [cacheSetShared, cacheSetSharedE, pyTry, cacheSetSharedRaw, Except.map,
      alistGet_alistSet]

set_option maxRecDepth 40000 in
/-- C10 witness: a stored empty mapping (the cached normalization of
`"{}"`) is skipped, the remote service runs again, and the entry is
replaced by the fresh result, on both backends. -/
theorem falsy_cached_entry_is_miss_witness :
    analyzeLocal ⟨[Json.obj []], [(generate_key [2] "", 0)]⟩ [2] "" pdfOk (.ok rawOk)
        = ⟨.ok resultOk,
            cacheSetLocal ⟨[Json.obj []], [(generate_key [2] "", 0)]⟩ (generate_key [2] "")
              resultOk, true⟩ ∧
    analyzeShared [(generate_key [2] "", "\x7b\x7d")] [2] "" (.ok ()) (.ok ()) pdfOk (.ok rawOk)
        = ⟨.ok resultOk,
            (cacheSetShared (.ok ()) [(generate_key [2] "", "\x7b\x7d")] (generate_key [2] "")
              resultOk).1, true⟩ :=
  ⟨(falsy_cached_entry_is_miss.1 ⟨[Json.obj []], [(generate_key [2] "", 0)]⟩ [2] "" pdfOk rawOk
      resultOk 0 rfl rfl rfl rfl rfl).1,
   (falsy_cached_entry_is_miss.2 [(generate_key [2] "", "\x7b\x7d")] [2] "" (.ok ()) pdfOk rawOk
      "\x7b\x7d" resultOk (Json.obj []) rfl rfl rfl rfl rfl rfl).1⟩

/-! # Round-trip of the JSON fragment: `json.loads ∘ json.dumps = some` -/

theorem skipWs_cons_of_not_ws {c : Char} (l : List Char) (h : isJsonWs c = false) :
    skipWs (c :: l) = c :: l := by
  simp [skipWs, List.dropWhile, h]

theorem pVal_space (fuel : Nat) (cs : List Char) : pVal fuel (' ' :: cs) = pVal fuel cs := by
  cases fuel with
  | zero => rfl
  | succ fu => simp [pVal, skipWs, List.dropWhile, isJsonWs]

theorem hexChar_isDigit : ∀ d, d < 10 → isDigitCh (Md5.hexChar d) = true := by decide

theorem hexChar_digVal : ∀ d, d < 10 → digVal (Md5.hexChar d) = d := by decide

theorem hexChar_not_ws : ∀ d, d < 10 → isJsonWs (Md5.hexChar d) = false := by decide

theorem hexChar_beq_zeroCh : ∀ d, d < 10 → ((Md5.hexChar d == '0') = true ↔ d = 0) := by decide

theorem pDigits_append (ds : List Char) :
    ∀ (rest : List Char) (acc : Nat), (∀ c ∈ ds, isDigitCh c = true) →
      noLeadDigit rest = true →
      pDigits (ds ++ rest) acc = (ds.foldl (fun a c => 10 * a + digVal c) acc, rest) := by
  induction ds with
  | nil =>
    intro rest acc _ hrest
    cases rest with
    | nil => simp [pDigits]
    | cons c l =>
      have hc : isDigitCh c = false := by
        simpa [noLeadDigit] using hrest
      simp [pDigits, hc]
  | cons c ds ih =>
    intro rest acc hds hrest
    have hc : isDigitCh c = true := hds c (by simp)
    simp only [List.cons_append, pDigits, hc, if_true, List.foldl_cons]
    exact ih rest _ (fun x hx => hds x (by simp [hx])) hrest

theorem natDecAux_eq_digits :
    ∀ (fuel : Nat) (n : Nat) (acc : List Char), 0 < n → n ≤ fuel →
      natDecAux fuel n acc = ((Nat.digits 10 n).reverse.map Md5.hexChar) ++ acc := by
  intro fuel
  induction fuel with
  | zero => intro n acc hn hf; omega
  | succ fu ih =>
    intro n acc hn hf
    have hdig : Nat.digits 10 n = n % 10 :: Nat.digits 10 (n / 10) :=
      Nat.digits_def' (by norm_num) hn
    by_cases hlt : n < 10
    · have h10 : n / 10 = 0 := Nat.div_eq_of_lt hlt
      have hmod : n % 10 = n := Nat.mod_eq_of_lt hlt
      simp [natDecAux, hlt, hdig, h10, hmod]
    · have h2 : 0 < n / 10 := by omega
      have h3 : n / 10 ≤ fu := by omega
      simp only [natDecAux, hlt, if_false]
      rw [ih (n / 10) _ h2 h3, hdig]
      simp

theorem foldl_map_hexChar (ds : List Nat) :
    ∀ acc, (∀ d ∈ ds, d < 10) →
      (ds.map Md5.hexChar).foldl (fun a c => 10 * a + digVal c) acc
        = ds.foldl (fun a d => 10 * a + d) acc := by
  induction ds with
  | nil => intro acc _; rfl
  | cons d ds ih =>
    intro acc hds
    have hd : d < 10 := hds d (by simp)
    simp only [List.map_cons, List.foldl_cons, hexChar_digVal d hd]
    exact ih _ (fun x hx => hds x (by simp [hx]))

theorem foldr_eq_ofDigits (ds : List Nat) :
    ds.foldr (fun d a => 10 * a + d) 0 = Nat.ofDigits 10 ds := by
  induction ds with
  | nil => simp [Nat.ofDigits]
  | cons d ds ih => simp [Nat.ofDigits, ih]; ring

theorem foldl_digits_reverse (n : Nat) :
    (((Nat.digits 10 n).reverse.map Md5.hexChar).foldl (fun a c => 10 * a + digVal c) 0) = n := by
  rw [foldl_map_hexChar ((Nat.digits 10 n).reverse) 0
    (fun d hd => Nat.digits_lt_base (by norm_num) (List.mem_reverse.mp hd)),
    List.foldl_reverse]
  have h : (Nat.digits 10 n).foldr (fun x y => 10 * y + x) 0
      = (Nat.digits 10 n).foldr (fun d a => 10 * a + d) 0 := rfl
  rw [h, foldr_eq_ofDigits, Nat.ofDigits_digits]

theorem hexChar_beq_zero_of_ne : ∀ d, d < 10 → d ≠ 0 → (Md5.hexChar d == '0') = false := by decide

theorem hexVal_hexChar : ∀ k, k < 16 → hexVal (Md5.hexChar k) = some k := by decide

theorem natDec_pos (n : Nat) (hn : 0 < n) :
    natDec n = (Nat.digits 10 n).reverse.map Md5.hexChar := by
  unfold natDec
  rw [natDecAux_eq_digits (n + 1) n [] hn (by omega)]
  simp

theorem digits_reverse_shape (n : Nat) (hn : 0 < n) :
    ∃ d ds, (Nat.digits 10 n).reverse = d :: ds ∧ d < 10 ∧ d ≠ 0 ∧ ∀ x ∈ ds, x < 10 := by
  have hne : Nat.digits 10 n ≠ [] := Nat.digits_ne_nil_iff_ne_zero.mpr (by omega)
  cases hrev : (Nat.digits 10 n).reverse with
  | nil => exact absurd (List.reverse_eq_nil_iff.mp hrev) hne
  | cons d ds =>
    refine ⟨d, ds, rfl, ?_, ?_, ?_⟩
    · exact Nat.digits_lt_base (by norm_num)
        (List.mem_reverse.mp (by rw [hrev]; exact List.mem_cons_self d ds))
    · have hh : (Nat.digits 10 n).getLast? = some d := by
        rw [← List.head?_reverse, hrev]; rfl
      have hl : (Nat.digits 10 n).getLast hne = d := by
        rw [List.getLast?_eq_getLast _ hne] at hh
        exact Option.some.inj hh
      rw [← hl]
      exact Nat.getLast_digit_ne_zero 10 (by omega)
    · intro x hx
      exact Nat.digits_lt_base (by norm_num)
        (List.mem_reverse.mp (by rw [hrev]; exact List.mem_cons_of_mem d hx))

theorem pIntBody_natDec (n : Nat) (rest : List Char) (hrest : noLeadDigit rest = true) :
    pIntBody (natDec n ++ rest) = some (n, rest) := by
  rcases Nat.eq_zero_or_pos n with hz | hp
  · subst hz
    have h0 : natDec 0 = ['0'] := rfl
    rw [h0]
    simp [pIntBody]
  · obtain ⟨d, ds, hrev, hd10, hd0, hds⟩ := digits_reverse_shape n hp
    rw [natDec_pos n hp, hrev]
    simp only [List.map_cons, List.cons_append, pIntBody,
      hexChar_beq_zero_of_ne d hd10 hd0, hexChar_isDigit d hd10, if_false, if_true]
    rw [pDigits_append (ds.map Md5.hexChar) rest (digVal (Md5.hexChar d))
      (fun c hc => by
        obtain ⟨x, hx, rfl⟩ := List.mem_map.mp hc
        exact hexChar_isDigit x (hds x hx)) hrest]
    have hval : (ds.map Md5.hexChar).foldl (fun a c => 10 * a + digVal c)
        (digVal (Md5.hexChar d)) = n := by
      have h1 := foldl_digits_reverse n
      rw [hrev] at h1
      simpa [hexChar_digVal d hd10] using h1
    rw [hval]
    simp

theorem natDec_head (n : Nat) : ∃ d tail, natDec n = Md5.hexChar d :: tail ∧ d < 10 := by
  rcases Nat.eq_zero_or_pos n with hz | hp
  · subst hz
    exact ⟨0, [], rfl, by omega⟩
  · obtain ⟨d, ds, hrev, hd10, _, _⟩ := digits_reverse_shape n hp
    exact ⟨d, ds.map Md5.hexChar, by rw [natDec_pos n hp, hrev]; rfl, hd10⟩

theorem pStr_escape (l : List Char) : ∀ rest, pStr (escapeL l ++ '\"' :: rest) = some (l, rest) := by
  induction l with
  | nil =>
    intro rest
    show pStr ('\"' :: rest) = some ([], rest)
    rw [pStr.eq_def]
    simp
  | cons c l ih =>
    intro rest
    have hesc : escapeL (c :: l) = escChar c ++ escapeL l := rfl
    rw [hesc, List.append_assoc]
    by_cases h1 : c == '\"'
    · have hc : c = '\"' := by simpa using h1
      subst hc
      show pStr ('\\' :: '\"' :: (escapeL l ++ '\"' :: rest)) = _
      rw [pStr.eq_def]
      simp [ih]
    · by_cases h2 : c == '\\'
      · have hc : c = '\\' := by simpa using h2
        subst hc
        show pStr ('\\' :: '\\' :: (escapeL l ++ '\"' :: rest)) = _
        rw [pStr.eq_def]
        simp [ih]
      · by_cases h3 : c == '\n'
        · have hc : c = '\n' := by simpa using h3
          subst hc
          show pStr ('\\' :: 'n' :: (escapeL l ++ '\"' :: rest)) = _
          rw [pStr.eq_def]
          simp [ih]
        · by_cases h4 : c == '\r'
          · have hc : c = '\r' := by simpa using h4
            subst hc
            show pStr ('\\' :: 'r' :: (escapeL l ++ '\"' :: rest)) = _
            rw [pStr.eq_def]
            simp [ih]
          · by_cases h5 : c == '\t'
            · have hc : c = '\t' := by simpa using h5
              subst hc
              show pStr ('\\' :: 't' :: (escapeL l ++ '\"' :: rest)) = _
              rw [pStr.eq_def]
              simp [ih]
            · by_cases h6 : c == '\x08'
              · have hc : c = '\x08' := by simpa using h6
                subst hc
                show pStr ('\\' :: 'b' :: (escapeL l ++ '\"' :: rest)) = _
                rw [pStr.eq_def]
                simp [ih]
              · by_cases h7 : c == '\x0c'
                · have hc : c = '\x0c' := by simpa using h7
                  subst hc
                  show pStr ('\\' :: 'f' :: (escapeL l ++ '\"' :: rest)) = _
                  rw [pStr.eq_def]
                  simp [ih]
                · by_cases h8 : c.toNat < 32
                  · have hesc2 : escChar c = ['\\', 'u', '0', '0',
                        Md5.hexChar (c.toNat / 16), Md5.hexChar (c.toNat % 16)] := by
                      simp only [escChar, h1, h2, h3, h4, h5, h6, h7, h8]
                      simp
                    rw [hesc2]
                    have hdiv : c.toNat / 16 < 16 := by omega
                    have hmod : c.toNat % 16 < 16 := Nat.mod_lt _ (by norm_num)
                    show pStr ('\\' :: 'u' :: '0' :: '0' :: Md5.hexChar (c.toNat / 16)
                      :: Md5.hexChar (c.toNat % 16) :: (escapeL l ++ '\"' :: rest)) = _
                    rw [pStr.eq_def]
                    simp +decide only [show hexVal '0' = some 0 from rfl,
                      hexVal_hexChar _ hdiv, hexVal_hexChar _ hmod]
                    have harith : (4096 * 0 + 256 * 0 + 16 * (c.toNat / 16) + c.toNat % 16)
                        = c.toNat := by omega
                    simp only [harith, Char.ofNat_toNat, ih]
                    simp
                  · have h1' : (c == '\"') = false := by simpa using h1
                    have h2' : (c == '\\') = false := by simpa using h2
                    have hesc2 : escChar c = [c] := by
                      simp only [escChar, h1, h2, h3, h4, h5, h6, h7, h8]
                      simp
                    rw [hesc2]
                    show pStr (c :: (escapeL l ++ '\"' :: rest)) = _
                    rw [pStr.eq_def]
                    simp [h1', h2', h8, ih]

theorem hexChar_not_jsonWs : ∀ d, d < 10 → isJsonWs (Md5.hexChar d) = false := by decide

theorem hexChar_ne_rbracket : ∀ d, d < 10 → (Md5.hexChar d == ']') = false := by decide

theorem intDec_neg (n : Int) (h : n < 0) : intDec n = '-' :: natDec n.natAbs := by
  simp [intDec, h]

theorem intDec_nonneg (n : Int) (h : ¬ n < 0) : intDec n = natDec n.natAbs := by
  simp [intDec, h]

theorem render_head (v : Json) :
    ∃ c tail, render v = c :: tail ∧ isJsonWs c = false ∧ (c == ']') = false := by
  cases v with
  | null => exact ⟨'n', ['u', 'l', 'l'], rfl, by decide, by decide⟩
  | bool b =>
    cases b with
    | true => exact ⟨'t', ['r', 'u', 'e'], rfl, by decide, by decide⟩
    | false => exact ⟨'f', ['a', 'l', 's', 'e'], rfl, by decide, by decide⟩
  | num n =>
    by_cases h : n < 0
    · exact ⟨'-', natDec n.natAbs, by rw [show render (Json.num n) = intDec n from rfl,
        intDec_neg n h], by decide, by decide⟩
    · obtain ⟨d, tail, hnat, hd⟩ := natDec_head n.natAbs
      exact ⟨Md5.hexChar d, tail, by rw [show render (Json.num n) = intDec n from rfl,
        intDec_nonneg n h, hnat], hexChar_not_jsonWs d hd, hexChar_ne_rbracket d hd⟩
  | str s =>
    exact ⟨'\"', escapeL s.data ++ ['\"'], rfl, by decide, by decide⟩
  | arr xs => exact ⟨'[', renderElems xs ++ [']'], rfl, by decide, by decide⟩
  | obj kvs => exact ⟨'\x7b', renderMems kvs ++ ['\x7d'], rfl, by decide, by decide⟩

theorem jfuel_pos (v : Json) : 1 ≤ jfuel v := by
  cases v <;> simp [jfuel]

theorem jfuelL_mem (xs : List Json) : ∀ x ∈ xs, jfuel x ≤ jfuelL xs := by
  induction xs with
  | nil => simp
  | cons y ys ih =>
    intro x hx
    rcases List.mem_cons.mp hx with rfl | hx2
    · simp [jfuelL]
      omega
    · have := ih x hx2
      simp [jfuelL]
      omega

theorem jfuelL_length (xs : List Json) : xs.length ≤ jfuelL xs := by
  induction xs with
  | nil => simp [jfuelL]
  | cons y ys ih => simp [jfuelL]; omega

theorem jfuelM_mem (kvs : List (String × Json)) : ∀ kv ∈ kvs, jfuel kv.2 ≤ jfuelM kvs := by
  induction kvs with
  | nil => simp
  | cons p ps ih =>
    intro kv hkv
    rcases List.mem_cons.mp hkv with rfl | h2
    · simp [jfuelM]
      omega
    · have := ih kv h2
      simp [jfuelM]
      omega

theorem jfuelM_length (kvs : List (String × Json)) : kvs.length ≤ jfuelM kvs := by
  induction kvs with
  | nil => simp [jfuelM]
  | cons p ps ih => simp [jfuelM]; omega

theorem arrTail_nil (rest : List Char) : arrTail [] rest = ']' :: rest := rfl

theorem arrTail_cons (x : Json) (xs : List Json) (rest : List Char) :
    arrTail (x :: xs) rest = ',' :: ' ' :: render x ++ arrTail xs rest := rfl

theorem objTail_nil (rest : List Char) : objTail [] rest = '\x7d' :: rest := rfl

theorem objTail_cons (k : String) (v : Json) (kvs : List (String × Json)) (rest : List Char) :
    objTail ((k, v) :: kvs) rest
      = ',' :: ' ' :: renderStr k ++ ':' :: ' ' :: render v ++ objTail kvs rest := rfl

theorem arrTail_noLead (xs : List Json) (rest : List Char) :
    noLeadDigit (arrTail xs rest) = true := by
  cases xs <;> rfl

theorem objTail_noLead (kvs : List (String × Json)) (rest : List Char) :
    noLeadDigit (objTail kvs rest) = true := by
  cases kvs with
  | nil => rfl
  | cons kv kvs => rfl

theorem renderElems_eq (xs : List Json) : ∀ (x : Json) (rest : List Char),
    renderElems (x :: xs) ++ ']' :: rest = render x ++ arrTail xs rest := by
  induction xs with
  | nil => intro x rest; simp [renderElems, arrTail_nil]
  | cons y t ih =>
    intro x rest
    rw [show renderElems (x :: y :: t) = render x ++ ',' :: ' ' :: renderElems (y :: t) from rfl,
      arrTail_cons]
    simp only [List.append_assoc, List.cons_append]
    rw [← ih y rest]

theorem renderMems_eq (kvs : List (String × Json)) : ∀ (k : String) (v : Json) (rest : List Char),
    renderMems ((k, v) :: kvs) ++ '\x7d' :: rest
      = renderStr k ++ ':' :: ' ' :: render v ++ objTail kvs rest := by
  induction kvs with
  | nil => intro k v rest; simp [renderMems, objTail_nil]
  | cons kv t ih =>
    intro k v rest
    obtain ⟨k2, v2⟩ := kv
    rw [show renderMems ((k, v) :: (k2, v2) :: t)
        = renderStr k ++ ':' :: ' ' :: render v ++ ',' :: ' ' :: renderMems ((k2, v2) :: t)
        from rfl,
      objTail_cons]
    simp only [List.append_assoc, List.cons_append]
    rw [ih k2 v2 rest]
    simp [List.append_assoc]


theorem pArrRest_render (xs : List Json) :
    ∀ (pv : List Char → Option (Json × List Char)) (fuel : Nat) (rest : List Char),
      (∀ x ∈ xs, ∀ r, noLeadDigit r = true → pv (render x ++ r) = some (x, r)) →
      (∀ l, pv (' ' :: l) = pv l) →
      xs.length < fuel → noLeadDigit rest = true →
      pArrRest pv fuel (arrTail xs rest) = some (xs, rest) := by
  induction xs with
  | nil =>
    intro pv fuel rest _ _ hf hrest
    obtain ⟨f, rfl⟩ : ∃ f, fuel = f + 1 := ⟨fuel - 1, by omega⟩
    rw [arrTail_nil, pArrRest.eq_def]
    simp [skipWs_cons_of_not_ws _ (by decide : isJsonWs ']' = false)]
  | cons x xs ih =>
    intro pv fuel rest helem hws hf hrest
    obtain ⟨f, rfl⟩ : ∃ f, fuel = f + 1 := ⟨fuel - 1, by omega⟩
    rw [arrTail_cons, pArrRest.eq_def]
    have hx : pv (' ' :: (render x ++ arrTail xs rest)) = some (x, arrTail xs rest) := by
      rw [hws]
      exact helem x (by simp) _ (arrTail_noLead xs rest)
    have hrec : pArrRest pv f (arrTail xs rest) = some (xs, rest) :=
      ih pv f rest (fun y hy => helem y (by simp [hy])) hws (by simpa using hf) hrest
    simp [skipWs_cons_of_not_ws _ (by decide : isJsonWs ',' = false), hx, hrec]

theorem pMember_render (k : String) (v : Json)
    (pv : List Char → Option (Json × List Char)) (rest : List Char)
    (hv : ∀ r, noLeadDigit r = true → pv (render v ++ r) = some (v, r))
    (hws : ∀ l, pv (' ' :: l) = pv l)
    (hrest : noLeadDigit rest = true) :
    pMember pv (renderStr k ++ ':' :: ' ' :: render v ++ rest) = some ((k, v), rest) := by
  have h1 : renderStr k ++ ':' :: ' ' :: render v ++ rest
      = '\"' :: (escapeL k.data ++ '\"' :: (':' :: ' ' :: (render v ++ rest))) := by
    simp [renderStr, List.append_assoc]
  rw [h1]
  have hstr := pStr_escape k.data (':' :: ' ' :: (render v ++ rest))
  have hx : pv (' ' :: (render v ++ rest)) = some (v, rest) := by
    rw [hws]
    exact hv rest hrest
  simp [pMember, skipWs_cons_of_not_ws _ (by decide : isJsonWs '\"' = false),
    skipWs_cons_of_not_ws _ (by decide : isJsonWs ':' = false), hstr, hx]

theorem pMemRest_render (kvs : List (String × Json)) :
    ∀ (pv : List Char → Option (Json × List Char)) (fuel : Nat) (rest : List Char),
      (∀ kv ∈ kvs, ∀ r, noLeadDigit r = true → pv (render kv.2 ++ r) = some (kv.2, r)) →
      (∀ l, pv (' ' :: l) = pv l) →
      kvs.length < fuel → noLeadDigit rest = true →
      pMemRest pv fuel (objTail kvs rest) = some (kvs, rest) := by
  induction kvs with
  | nil =>
    intro pv fuel rest _ _ hf hrest
    obtain ⟨f, rfl⟩ : ∃ f, fuel = f + 1 := ⟨fuel - 1, by omega⟩
    rw [objTail_nil, pMemRest.eq_def]
    simp [skipWs_cons_of_not_ws _ (by decide : isJsonWs '\x7d' = false)]
  | cons kv kvs ih =>
    intro pv fuel rest helem hws hf hrest
    obtain ⟨f, rfl⟩ : ∃ f, fuel = f + 1 := ⟨fuel - 1, by omega⟩
    obtain ⟨k, v⟩ := kv
    rw [objTail_cons, pMemRest.eq_def]
    have hmem : pMember pv (' ' :: (renderStr k ++ ':' :: ' ' :: render v ++ objTail kvs rest))
        = some ((k, v), objTail kvs rest) := by
      have hskip : skipWs (' ' :: (renderStr k ++ ':' :: ' ' :: render v ++ objTail kvs rest))
          = skipWs (renderStr k ++ ':' :: ' ' :: render v ++ objTail kvs rest) := by
        simp [skipWs, List.dropWhile, isJsonWs]
      rw [pMember.eq_def, hskip, ← pMember.eq_def]
      exact pMember_render k v pv (objTail kvs rest)
        (fun r hr => helem (k, v) (by simp) r hr) hws (objTail_noLead kvs rest)
    have hrec : pMemRest pv f (objTail kvs rest) = some (kvs, rest) :=
      ih pv f rest (fun y hy => helem y (by simp [hy])) hws (by simpa using hf) hrest
    simp only [List.append_assoc, List.cons_append] at hmem ⊢
    simp [skipWs_cons_of_not_ws _ (by decide : isJsonWs ',' = false), hmem, hrec]

theorem hexChar_ne_lbrace : ∀ d, d < 10 → (Md5.hexChar d == '\x7b') = false := by decide

theorem hexChar_ne_lbracket : ∀ d, d < 10 → (Md5.hexChar d == '[') = false := by decide

theorem hexChar_ne_quote : ∀ d, d < 10 → (Md5.hexChar d == '\"') = false := by decide

theorem hexChar_ne_minus : ∀ d, d < 10 → (Md5.hexChar d == '-') = false := by decide

theorem pVal_render_bound :
    ∀ (N : Nat) (v : Json), sizeOf v ≤ N →
      ∀ (fuel : Nat) (rest : List Char), jfuel v ≤ fuel → noLeadDigit rest = true →
        pVal fuel (render v ++ rest) = some (v, rest) := by
  intro N
  induction N using Nat.strong_induction_on with
  | _ N IH =>
    intro v hsz fuel rest hfuel hrest
    obtain ⟨fu, rfl⟩ : ∃ fu, fuel = fu + 1 := ⟨fuel - 1, by have := jfuel_pos v; omega⟩
    cases v with
    | null =>
      rw [show render Json.null ++ rest = 'n' :: 'u' :: 'l' :: 'l' :: rest from rfl, pVal.eq_def]
      simp +decide [skipWs_cons_of_not_ws _ (by decide : isJsonWs 'n' = false),
        show "true".data.isPrefixOf ('n' :: 'u' :: 'l' :: 'l' :: rest) = false from by simp [List.isPrefixOf],
        show "false".data.isPrefixOf ('n' :: 'u' :: 'l' :: 'l' :: rest) = false from by simp [List.isPrefixOf],
        show "null".data.isPrefixOf ('n' :: 'u' :: 'l' :: 'l' :: rest) = true from by simp [List.isPrefixOf]]
    | bool b =>
      cases b with
      | true =>
        rw [show render (Json.bool true) ++ rest = 't' :: 'r' :: 'u' :: 'e' :: rest from rfl,
          pVal.eq_def]
        simp +decide [skipWs_cons_of_not_ws _ (by decide : isJsonWs 't' = false),
          show "true".data.isPrefixOf ('t' :: 'r' :: 'u' :: 'e' :: rest) = true from by simp [List.isPrefixOf]]
      | false =>
        rw [show render (Json.bool false) ++ rest
            = 'f' :: 'a' :: 'l' :: 's' :: 'e' :: rest from rfl, pVal.eq_def]
        simp +decide [skipWs_cons_of_not_ws _ (by decide : isJsonWs 'f' = false),
          show "true".data.isPrefixOf ('f' :: 'a' :: 'l' :: 's' :: 'e' :: rest) = false from by simp [List.isPrefixOf],
          show "false".data.isPrefixOf ('f' :: 'a' :: 'l' :: 's' :: 'e' :: rest) = true from by simp [List.isPrefixOf]]
    | str s =>
      have hr : render (Json.str s) ++ rest = '\"' :: (escapeL s.data ++ '\"' :: rest) := by
        show renderStr s ++ rest = _
        simp [renderStr]
      rw [hr, pVal.eq_def]
      have heta : (⟨s.data⟩ : String) = s := rfl
      simp +decide [skipWs_cons_of_not_ws _ (by decide : isJsonWs '\"' = false),
        pStr_escape s.data rest, heta]
    | num n =>
      by_cases hneg : n < 0
      · have hr : render (Json.num n) ++ rest = '-' :: (natDec n.natAbs ++ rest) := by
          rw [show render (Json.num n) = intDec n from rfl, intDec_neg n hneg]
          rfl
        rw [hr, pVal.eq_def]
        have hval : -(n.natAbs : Int) = n := by omega
        have hval2 : -|n| = n := by
          rw [abs_of_neg hneg]
          ring
        simp +decide [skipWs_cons_of_not_ws _ (by decide : isJsonWs '-' = false),
          pIntBody_natDec n.natAbs rest hrest, hval, hval2]
      · obtain ⟨d, tail, hnd, hd10⟩ := natDec_head n.natAbs
        have hr : render (Json.num n) ++ rest = Md5.hexChar d :: (tail ++ rest) := by
          rw [show render (Json.num n) = intDec n from rfl, intDec_nonneg n hneg, hnd]
          rfl
        rw [hr, pVal.eq_def]
        have hback : Md5.hexChar d :: (tail ++ rest) = natDec n.natAbs ++ rest := by
          rw [hnd]
          rfl
        have hval : (n.natAbs : Int) = n := by omega
        simp only [skipWs_cons_of_not_ws _ (hexChar_not_jsonWs d hd10),
          hexChar_ne_lbrace d hd10, hexChar_ne_lbracket d hd10, hexChar_ne_quote d hd10,
          hexChar_ne_minus d hd10, hexChar_isDigit d hd10, Bool.false_eq_true, if_false,
          if_true]
        rw [hback, pIntBody_natDec n.natAbs rest hrest]
        simp [hval]
    | arr xs =>
      have hfuel2 : jfuelL xs + 2 ≤ fu + 1 := hfuel
      have hr : render (Json.arr xs) ++ rest = '[' :: (renderElems xs ++ ']' :: rest) := by
        show ('[' :: renderElems xs ++ [']']) ++ rest = _
        simp
      rw [hr, pVal.eq_def]
      simp +decide only [skipWs_cons_of_not_ws _ (by decide : isJsonWs '[' = false)]
      have harr : pArr (pVal fu) fu (renderElems xs ++ ']' :: rest) = some (xs, rest) := by
        cases xs with
        | nil =>
          rw [show renderElems ([] : List Json) ++ ']' :: rest = ']' :: rest from rfl]
          simp [pArr, skipWs_cons_of_not_ws _ (by decide : isJsonWs ']' = false)]
        | cons x xs2 =>
          rw [renderElems_eq xs2 x rest]
          obtain ⟨c, ctail, hxr, hcws, hcrb⟩ := render_head x
          have hsplit : render x ++ arrTail xs2 rest = c :: (ctail ++ arrTail xs2 rest) := by
            rw [hxr]
            rfl
          have hszx : sizeOf x < N := by
            have h1 : sizeOf x < sizeOf (Json.arr (x :: xs2)) := by
              have := List.sizeOf_lt_of_mem (List.mem_cons_self x xs2)
              simp only [Json.arr.sizeOf_spec]
              omega
            omega
          have hfux : jfuel x ≤ fu := by
            have := jfuelL_mem (x :: xs2) x (by simp)
            omega
          have hvx : pVal fu (render x ++ arrTail xs2 rest) = some (x, arrTail xs2 rest) :=
            IH (sizeOf x) hszx x (Nat.le_refl _) fu (arrTail xs2 rest) hfux
              (arrTail_noLead xs2 rest)
          have hrest2 : pArrRest (pVal fu) fu (arrTail xs2 rest) = some (xs2, rest) := by
            apply pArrRest_render xs2 (pVal fu) fu rest
            · intro y hy r hr2
              have hszy : sizeOf y < N := by
                have h1 : sizeOf y < sizeOf (Json.arr (x :: xs2)) := by
                  have := List.sizeOf_lt_of_mem (List.mem_cons_of_mem x hy)
                  simp only [Json.arr.sizeOf_spec]
                  omega
                omega
              have hfuy : jfuel y ≤ fu := by
                have := jfuelL_mem (x :: xs2) y (by simp [hy])
                omega
              exact IH (sizeOf y) hszy y (Nat.le_refl _) fu r hfuy hr2
            · exact pVal_space fu
            · have := jfuelL_length (x :: xs2)
              simp only [List.length_cons] at this ⊢
              omega
            · exact hrest
          rw [pArr.eq_def, hsplit]
          simp only [skipWs_cons_of_not_ws _ hcws, hcrb, Bool.false_eq_true, if_false]
          rw [← hsplit, hvx]
          simp only [hrest2, Option.map_some']
      simp [harr]
    | obj kvs =>
      have hfuel2 : jfuelM kvs + 2 ≤ fu + 1 := hfuel
      have hr : render (Json.obj kvs) ++ rest = '\x7b' :: (renderMems kvs ++ '\x7d' :: rest) := by
        show ('\x7b' :: renderMems kvs ++ ['\x7d']) ++ rest = _
        simp
      rw [hr, pVal.eq_def]
      simp +decide only [skipWs_cons_of_not_ws _ (by decide : isJsonWs '\x7b' = false)]
      have hobj : pObj (pVal fu) fu (renderMems kvs ++ '\x7d' :: rest) = some (kvs, rest) := by
        cases kvs with
        | nil =>
          rw [show renderMems ([] : List (String × Json)) ++ '\x7d' :: rest
              = '\x7d' :: rest from rfl]
          simp [pObj, skipWs_cons_of_not_ws _ (by decide : isJsonWs '\x7d' = false)]
        | cons kv kvs2 =>
          obtain ⟨k, v⟩ := kv
          rw [renderMems_eq kvs2 k v rest]
          have hsplit : renderStr k ++ ':' :: ' ' :: render v ++ objTail kvs2 rest
              = '\"' :: (escapeL k.data ++ ('\"' :: (':' :: ' ' :: render v ++ objTail kvs2 rest))) := by
            simp [renderStr]
          have hszv : sizeOf v < N := by
            have h1 : sizeOf v < sizeOf (Json.obj ((k, v) :: kvs2)) := by
              have h2 := List.sizeOf_lt_of_mem (List.mem_cons_self (k, v) kvs2)
              have h3 : sizeOf v < sizeOf (k, v) := by
                simp
              simp only [Json.obj.sizeOf_spec]
              omega
            omega
          have hfuv : jfuel v ≤ fu := by
            have := jfuelM_mem ((k, v) :: kvs2) (k, v) (by simp)
            simp only at this
            omega
          have hmem : pMember (pVal fu) (renderStr k ++ ':' :: ' ' :: render v ++ objTail kvs2 rest)
              = some ((k, v), objTail kvs2 rest) := by
            apply pMember_render k v (pVal fu) (objTail kvs2 rest)
            · intro r hr2
              exact IH (sizeOf v) hszv v (Nat.le_refl _) fu r hfuv hr2
            · exact pVal_space fu
            · exact objTail_noLead kvs2 rest
          have hrest2 : pMemRest (pVal fu) fu (objTail kvs2 rest) = some (kvs2, rest) := by
            apply pMemRest_render kvs2 (pVal fu) fu rest
            · intro y hy r hr2
              have hszy : sizeOf y.2 < N := by
                have h1 : sizeOf y.2 < sizeOf (Json.obj ((k, v) :: kvs2)) := by
                  have h2 := List.sizeOf_lt_of_mem (List.mem_cons_of_mem (k, v) hy)
                  have h3 : sizeOf y.2 < sizeOf y := by
                    obtain ⟨y1, y2⟩ := y
                    simp
                  simp only [Json.obj.sizeOf_spec]
                  omega
                omega
              have hfuy : jfuel y.2 ≤ fu := by
                have := jfuelM_mem ((k, v) :: kvs2) y (by simp [hy])
                omega
              exact IH (sizeOf y.2) hszy y.2 (Nat.le_refl _) fu r hfuy hr2
            · exact pVal_space fu
            · have := jfuelM_length ((k, v) :: kvs2)
              simp only [List.length_cons] at this ⊢
              omega
            · exact hrest
          rw [pObj.eq_def, hsplit]
          simp only [skipWs_cons_of_not_ws _ (by decide : isJsonWs '\"' = false),
            show ('\"' == '\x7d') = false from by decide, Bool.false_eq_true, if_false]
          rw [← hsplit, hmem]
          simp only [hrest2, Option.map_some']
      simp [hobj]

theorem jfuelL_le_renderElems (xs : List Json)
    (h : ∀ x ∈ xs, jfuel x ≤ 2 * (render x).length + 2) :
    jfuelL xs ≤ 2 * (renderElems xs).length + 3 := by
  induction xs with
  | nil => simp [jfuelL]
  | cons x t ih =>
    cases t with
    | nil =>
      have hx := h x (by simp)
      rw [show renderElems [x] = render x from rfl]
      have h2 : jfuelL [x] = jfuel x + 1 := by simp [jfuelL]
      omega
    | cons y t2 =>
      have hx := h x (by simp)
      have ht := ih (fun z hz => h z (by simp [List.mem_cons.mp hz]))
      rw [show renderElems (x :: y :: t2) = render x ++ ',' :: ' ' :: renderElems (y :: t2)
        from rfl]
      have hlen : (render x ++ ',' :: ' ' :: renderElems (y :: t2)).length
          = (render x).length + 2 + (renderElems (y :: t2)).length := by
        simp
        omega
      rw [hlen]
      simp only [jfuelL]
      have h1 : 1 ≤ (render x).length := by
        obtain ⟨c, tail, hc, _, _⟩ := render_head x
        rw [hc]
        simp
      simp only [jfuelL] at ht
      omega

theorem jfuelM_le_renderMems (kvs : List (String × Json))
    (h : ∀ kv ∈ kvs, jfuel kv.2 ≤ 2 * (render kv.2).length + 2) :
    jfuelM kvs ≤ 2 * (renderMems kvs).length + 3 := by
  induction kvs with
  | nil => simp [jfuelM]
  | cons kv t ih =>
    obtain ⟨k, v⟩ := kv
    have hlenStr : 2 ≤ (renderStr k).length := by
      simp [renderStr]
    cases t with
    | nil =>
      have hx := h (k, v) (by simp)
      rw [show renderMems [(k, v)] = renderStr k ++ ':' :: ' ' :: render v from rfl]
      simp only [jfuelM]
      simp only at hx
      have : (renderStr k ++ ':' :: ' ' :: render v).length
          = (renderStr k).length + 2 + (render v).length := by
        simp
        omega
      rw [this]
      simp [jfuelM]
      omega
    | cons kv2 t2 =>
      obtain ⟨k2, v2⟩ := kv2
      have hx := h (k, v) (by simp)
      simp only at hx
      have ht := ih (fun z hz => h z (by simp [List.mem_cons.mp hz]))
      rw [show renderMems ((k, v) :: (k2, v2) :: t2)
          = renderStr k ++ ':' :: ' ' :: render v ++ ',' :: ' ' :: renderMems ((k2, v2) :: t2)
        from rfl]
      have hlen : (renderStr k ++ ':' :: ' ' :: render v ++ ',' :: ' '
            :: renderMems ((k2, v2) :: t2)).length
          = (renderStr k).length + 2 + (render v).length + 2
            + (renderMems ((k2, v2) :: t2)).length := by
        simp
        omega
      rw [hlen]
      simp only [jfuelM] at ht ⊢
      omega

theorem jfuel_le_render_length :
    ∀ (N : Nat) (v : Json), sizeOf v ≤ N → jfuel v ≤ 2 * (render v).length + 2 := by
  intro N
  induction N using Nat.strong_induction_on with
  | _ N IH =>
    intro v hsz
    cases v with
    | null => simp [jfuel]
    | bool b => cases b <;> simp [jfuel]
    | num n => simp [jfuel]
    | str s => simp [jfuel]
    | arr xs =>
      have hL : jfuelL xs ≤ 2 * (renderElems xs).length + 3 := by
        apply jfuelL_le_renderElems
        intro x hx
        have h1 : sizeOf x < sizeOf (Json.arr xs) := by
          have := List.sizeOf_lt_of_mem hx
          simp only [Json.arr.sizeOf_spec]
          omega
        exact IH (sizeOf x) (by omega) x (Nat.le_refl _)
      rw [show render (Json.arr xs) = '[' :: renderElems xs ++ [']'] from rfl]
      simp only [jfuel]
      simp
      omega
    | obj kvs =>
      have hM : jfuelM kvs ≤ 2 * (renderMems kvs).length + 3 := by
        apply jfuelM_le_renderMems
        intro kv hkv
        have h1 : sizeOf kv.2 < sizeOf (Json.obj kvs) := by
          have h2 := List.sizeOf_lt_of_mem hkv
          have h3 : sizeOf kv.2 < sizeOf kv := by
            obtain ⟨k1, v1⟩ := kv
            simp
          simp only [Json.obj.sizeOf_spec]
          omega
        exact IH (sizeOf kv.2) (by omega) kv.2 (Nat.le_refl _)
      rw [show render (Json.obj kvs) = '\x7b' :: renderMems kvs ++ ['\x7d'] from rfl]
      simp only [jfuel]
      simp
      omega

/-- The serializer–parser round trip of the embedded `json` module: the
decoder returns exactly the serialized value. -/
theorem json_loads_json_dumps (v : Json) : json_loads (json_dumps v) = some v := by
  have hmain := pVal_render_bound (sizeOf v) v (Nat.le_refl _) (2 * (render v).length + 2) []
    (jfuel_le_render_length (sizeOf v) v (Nat.le_refl _)) rfl
  rw [List.append_nil] at hmain
  have hlen : (json_dumps v).length = (render v).length := rfl
  have hdata : (json_dumps v).data = render v := rfl
  rw [json_loads, hlen, hdata, hmain]
  rfl

theorem json_dumps_ne_empty (v : Json) : (json_dumps v == "") = false := by
  obtain ⟨c, tail, hc, _, _⟩ := render_head v
  have : json_dumps v ≠ "" := by
    intro h
    have hd : (json_dumps v).data = [] := by rw [h]
    rw [show (json_dumps v).data = render v from rfl, hc] at hd
    exact List.noConfusion hd
  exact beq_eq_false_iff_ne.mpr this

/-! # C9: cache round-trip -/

/-- C9. After `set(k, v)`, `get(k)` returns a value deeply equal to `v`
on both backends (within the TTL on the shared backend, whose live
entries the store models): the local backend returns the stored object
itself, and the shared backend deserializes exactly the value it
serialized. -/
theorem cache_round_trip (s : LocalState) (tbl : List (String × String)) (k : String)
    (v : Json) :
    cacheGetLocal (cacheSetLocal s k v) k = some v ∧
    cacheGetShared (.ok ()) (cacheSetShared (.ok ()) tbl k v).1 k = some v := by
  refine ⟨cacheGetLocal_cacheSetLocal s k v, ?_⟩
  have hset : (cacheSetShared (.ok ()) tbl k v).1 = alistSet tbl k (json_dumps v) := by
    simp [cacheSetShared, cacheSetSharedE, pyTry, cacheSetSharedRaw, Except.map]
  rw [hset]
  simp [cacheGetShared, cacheGetSharedE, pyTry, cacheGetSharedRaw, alistGet_alistSet,
    json_dumps_ne_empty v, json_loads_json_dumps v]

/-- C4 witness: a bare (fence-free) payload goes through `json.loads`
of the stripped text. -/
theorem normalizer_fence_stripping_witness :
    normalizeOutput "\x7b\"b\": 2\x7d" = json_loads (pyStrip "\x7b\"b\": 2\x7d") :=
  normalizer_fence_stripping.2.2.2 "\x7b\"b\": 2\x7d" rfl
